import Mathlib

/-!
Lesson editor front end: quiz list model, content splitter, theme toggle, test widget

A shallow embedding of `static/js/admin.js`, `static/js/app.js` and the image
insertion path of `static/js/tiptap.js`.  The DOM is represented by the data the
scripts read and write: element lists become Lean lists, `dataset`/`value`/
`checked` properties become structure fields, and event handlers become
functions from state to state.
-/

namespace LessonEditor

/-! ## JavaScript values used by the scripts -/

/-- JavaScript `a || b` where `a` is a string or `undefined`/`null`
(`none`): the empty string and the missing value are falsy. -/
def jsOr (a : Option String) (b : String) : String :=
  match a with
  | some s => if s = "" then b else s
  | none => b

/-! ## Content splitter (`extractTasksFromEditor`, admin.js 142-161) -/

/-- A top-level child node of the container that `extractTasksFromEditor`
fills through `innerHTML`.  `tagName` and `outerHTML` are `none` for nodes
that are not elements (text and comment nodes), where JavaScript reads
`undefined`. -/
structure Node where
  tagName : Option String
  outerHTML : Option String
  textContent : String
  deriving DecidableEq, Repr

/-- A task section `{ title, html }`. -/
structure Task where
  title : String
  html : String
  deriving DecidableEq, Repr

/-- The loop state of `extractTasksFromEditor`: the `tasks` array and the
`current` section (`none` for `null`). -/
structure SplitState where
  tasks : List Task
  current : Option Task
  deriving DecidableEq, Repr

/-- The test `node.tagName === 'H3'`. -/
def isH3 (node : Node) : Bool :=
  node.tagName == some "H3"

/-- The expression `node.outerHTML || node.textContent`. -/
def nodeMarkup (node : Node) : String :=
  jsOr node.outerHTML node.textContent

/-- One iteration of the `forEach` callback of `extractTasksFromEditor`. -/
def splitStep (st : SplitState) (node : Node) : SplitState :=
  if isH3 node then
    let tasks := match st.current with
      | some cur => st.tasks ++ [cur]
      | none => st.tasks
    { tasks := tasks
      current := some { title := jsOr (some node.textContent) "Задача", html := "" } }
  else
    let cur := match st.current with
      | some cur => cur
      | none => { title := "Задача", html := "" }
    { tasks := st.tasks
      current := some { cur with html := cur.html ++ nodeMarkup node } }

/-- The function `extractTasksFromEditor` on the child nodes of the container:
the fold over the nodes followed by the final `if (current) tasks.push(current)`. -/
def extractTasksFromEditor (nodes : List Node) : List Task :=
  let st := nodes.foldl splitStep { tasks := [], current := none }
  match st.current with
  | some cur => st.tasks ++ [cur]
  | none => st.tasks

/-- The markup that `hydrateEditors` (admin.js 169-171) hands to the tasks
editor: each task as a heading followed by its body, joined without separator. -/
def tasksHtml (tasks : List Task) : String :=
  String.join (tasks.map fun task => "<h3>" ++ task.title ++ "</h3>" ++ task.html)

/-! ### The splitter as the specification words it

The definitions of this section follow the wording of the specification and
use none of the functions of the embedding above. -/

/-- A heading-level-3 node: an element whose tag name is `H3`. -/
def specIsHeading (n : Node) : Bool :=
  match n.tagName with
  | some tag => decide (tag = "H3")
  | none => false

/-- The title of a section: the heading's text, or the placeholder when that
text is empty. -/
def specTitle (heading : Node) : String :=
  if heading.textContent = "" then "Задача" else heading.textContent

/-- The markup of a node, or its text for a node without markup. -/
def specMarkup (n : Node) : String :=
  match n.outerHTML with
  | none => n.textContent
  | some markup => if markup = "" then n.textContent else markup

/-- Concatenation, in order, of the markup (or text) of a run of nodes. -/
def bodyMarkup (nodes : List Node) : String :=
  String.join (nodes.map specMarkup)

/-- The body nodes of a section: the nodes up to the next heading. -/
def bodyNodes (nodes : List Node) : List Node :=
  nodes.takeWhile fun n => !specIsHeading n

/-- One section per heading, in order: its title is the heading text (or the
placeholder), its body the non-heading nodes up to the next heading. -/
def headingSections : List Node → List Task
  | [] => []
  | n :: rest =>
    if specIsHeading n then
      { title := specTitle n, html := bodyMarkup (bodyNodes rest) } :: headingSections rest
    else headingSections rest

/-- The sections as the specification describes them: none for no nodes,
otherwise the heading sections, preceded by a placeholder-titled section for
the leading nodes exactly when the first node is not a heading. -/
def specSections : List Node → List Task
  | [] => []
  | n :: rest =>
    (if specIsHeading n then []
      else [{ title := "Задача", html := bodyMarkup (bodyNodes (n :: rest)) }])
      ++ headingSections (n :: rest)

/-- An element node with the given tag, serialisation and text. -/
def elementNode (tag outer text : String) : Node :=
  { tagName := some tag, outerHTML := some outer, textContent := text }

/-- A text node: no tag name, no serialisation of its own. -/
def textNode (text : String) : Node :=
  { tagName := none, outerHTML := none, textContent := text }

/-- The final push of `extractTasksFromEditor`, separated from the fold. -/
def finishSplit (st : SplitState) : List Task :=
  match st.current with
  | some cur => st.tasks ++ [cur]
  | none => st.tasks

/-! ### The hydration markup and the nodes it is turned into

Between `tasksHtml` and `extractTasksFromEditor` stand the rich editor
(`setContent`, `getHTML`) and the browser's HTML parser (`innerHTML`), neither
of which is part of the scripts; they enter as a function from markup to
top-level nodes. -/

/-- One section together with the nodes that stand for it among the top-level
nodes: its heading node and its body nodes. -/
structure ParsedSection where
  task : Task
  heading : Node
  body : List Node
  deriving DecidableEq, Repr

/-- The nodes stand for the section: the heading is an H3 node whose text is
the (non-empty) title, no body node is an H3 node, and the markup of the body
nodes concatenates to the section's html. -/
def standsFor (s : ParsedSection) : Prop :=
  specIsHeading s.heading = true
  ∧ s.heading.textContent = s.task.title
  ∧ s.task.title ≠ ""
  ∧ (∀ n ∈ s.body, specIsHeading n = false)
  ∧ bodyMarkup s.body = s.task.html

/-- The top-level nodes of a list of parsed sections, in order. -/
def parsedNodes (secs : List ParsedSection) : List Node :=
  secs.flatMap fun s => s.heading :: s.body

/-- The reading position of `scanMarkup`: in text, just after `<`, inside an
opening tag, inside a closing tag. -/
inductive ScanMode where
  | content
  | afterLt
  | openTag
  | closeTag
  deriving DecidableEq, Repr

/-- The state of `scanMarkup`: the finished top-level nodes, the nesting
depth, and the serialisation, text, tag name of the top-level node being read
and the name of the tag being read. -/
structure ScanState where
  nodes : List Node
  depth : Nat
  mode : ScanMode
  outer : List Char
  text : List Char
  tag : List Char
  name : List Char
  deriving DecidableEq, Repr

/-- One character of `scanMarkup`. -/
def scanChar (st : ScanState) (c : Char) : ScanState :=
  match st.mode with
  | .content =>
    if c = '<' then
      if st.depth = 0 ∧ st.outer ≠ [] then
        { st with
          nodes := st.nodes ++ [textNode (String.mk st.text)]
          outer := [c], text := [], mode := .afterLt }
      else { st with outer := st.outer ++ [c], mode := .afterLt }
    else { st with outer := st.outer ++ [c], text := st.text ++ [c] }
  | .afterLt =>
    if c = '/' then { st with outer := st.outer ++ [c], mode := .closeTag }
    else { st with outer := st.outer ++ [c], name := [c], mode := .openTag }
  | .openTag =>
    if c = '>' then
      { st with
        outer := st.outer ++ [c]
        tag := if st.depth = 0 then st.name else st.tag
        depth := st.depth + 1
        mode := .content }
    else { st with outer := st.outer ++ [c], name := st.name ++ [c] }
  | .closeTag =>
    if c = '>' then
      if st.depth ≤ 1 then
        { st with
          nodes := st.nodes ++
            [elementNode (String.mk (st.tag.map Char.toUpper)) (String.mk (st.outer ++ [c]))
              (String.mk st.text)]
          depth := 0, outer := [], text := [], tag := [], name := [], mode := .content }
      else { st with outer := st.outer ++ [c], depth := st.depth - 1, mode := .content }
    else { st with outer := st.outer ++ [c] }

/-- A reader of attribute-free, well-nested markup: the top-level elements
(tag name in upper case, serialisation, text) and the top-level runs of text.
It serves as a sample of the editor-and-parser pipeline. -/
def scanMarkup (html : String) : List Node :=
  let st := html.data.foldl scanChar
    { nodes := [], depth := 0, mode := .content, outer := [], text := [], tag := [], name := [] }
  if st.depth = 0 ∧ st.outer ≠ [] then st.nodes ++ [textNode (String.mk st.text)] else st.nodes

/-! ## Quiz editor list model (admin.js 10-139, 163-205) -/

/-- The ECMAScript `WhiteSpace` and `LineTerminator` code points, the
characters that `String.prototype.trim` strips. -/
def isJsWhiteSpace (c : Char) : Bool :=
  let n := c.toNat
  n == 0x09 || n == 0x0A || n == 0x0B || n == 0x0C || n == 0x0D || n == 0x20
    || n == 0xA0 || n == 0x1680 || (0x2000 ≤ n && n ≤ 0x200A)
    || n == 0x2028 || n == 0x2029 || n == 0x202F || n == 0x205F || n == 0x3000
    || n == 0xFEFF

/-- The value sanitisation of `<input type="text">`: line feeds and carriage
returns are stripped from a value assigned to `input.value`. -/
def stripNewlines (s : String) : String :=
  String.mk (s.data.filter fun c => c.toNat != 0x0A && c.toNat != 0x0D)

/-- JavaScript `s.trim()`. -/
def jsTrim (s : String) : String :=
  String.mk ((s.data.dropWhile isJsWhiteSpace).reverse.dropWhile isJsWhiteSpace).reverse

/-- A JavaScript value as it may be found under `correct_index`.  `number`
carries integral numbers; `other` stands for every value that is not nullish
and is never strictly equal to a loop index (non-integral numbers, booleans,
objects). -/
inductive JsValue where
  | undefined
  | null
  | number (n : Int)
  | string (s : String)
  | other
  deriving DecidableEq, Repr

/-- JavaScript `v ?? d`. -/
def nullish (v d : JsValue) : JsValue :=
  match v with
  | .undefined => d
  | .null => d
  | w => w

/-- JavaScript `i === v` for a loop index `i`. -/
def strictEqIndex (i : Nat) (v : JsValue) : Bool :=
  match v with
  | .number n => n == (i : Int)
  | _ => false

/-- JavaScript `Array.prototype.findIndex`, scanning from position `i`. -/
def findIndexFrom {α : Type} (p : α → Bool) : List α → Nat → Int
  | [], _ => -1
  | x :: xs, i => if p x then (i : Int) else findIndexFrom p xs (i + 1)

/-- JavaScript `Array.prototype.findIndex`: the first position satisfying the
predicate, or `-1`. -/
def jsFindIndex {α : Type} (p : α → Bool) (l : List α) : Int :=
  findIndexFrom p l 0

/-- The data of one test as supplied to `addTestItem`; absent properties are
`none`/`undefined`, absent or null array entries are `none`. -/
structure TestData where
  question : Option String
  options : Option (List (Option String))
  correct_index : JsValue
  deriving DecidableEq, Repr

/-- The expression `data?.question`. -/
def dataQuestion (data : Option TestData) : Option String :=
  data.bind fun d => d.question

/-- The expression `data?.options?.[i]`. -/
def dataOption (data : Option TestData) (i : Nat) : Option String :=
  (data.bind fun d => d.options).bind fun l => (l[i]?).join

/-- The expression `data?.correct_index`. -/
def dataCorrectIndex (data : Option TestData) : JsValue :=
  match data with
  | some d => d.correct_index
  | none => .undefined

/-- A rich editor instance, represented by what its `getHTML()` returns. -/
structure Editor where
  html : String
  deriving DecidableEq, Repr

/-- One `.option-row`: the text input's `value` and the checkbox's `checked`. -/
structure OptionRow where
  value : String
  checked : Bool
  deriving DecidableEq, Repr

/-- One `.test-editor` wrapper.  `testId` is the number `n` of
`dataset.testId = test-n`; as the counter never repeats a value it also stands
for the identity of the wrapper element.  `questionText` is the `textContent`
that line 58 writes into `.test-question-editor` when there is no rich editor. -/
structure Row where
  testId : Nat
  questionText : String
  optionRows : List OptionRow
  deriving DecidableEq, Repr

/-- The module state of admin.js together with the part of the page it uses.
`testsListEl` tells whether `#testsList` exists, `helpers` whether
`window.tiptapHelpers.createRichEditor` exists, `initialTests` is
`initialLessonData.tests || []`, `testEditors` is the `Map` in insertion order
and `rows` are the `.test-editor` children of `#testsList`. -/
structure AdminState where
  testsListEl : Bool
  helpers : Bool
  initialTests : List (Option TestData)
  testEditors : List (Nat × Option Editor)
  testCounter : Nat
  tiptapReady : Bool
  pendingTestQueue : List (Option TestData)
  rows : List Row
  deriving DecidableEq, Repr

/-- The method `Map.prototype.get`. -/
def mapGet {β : Type} (m : List (Nat × β)) (k : Nat) : Option β :=
  (m.find? fun p => p.1 == k).map Prod.snd

/-- The method `Map.prototype.delete`. -/
def mapDelete {β : Type} (m : List (Nat × β)) (k : Nat) : List (Nat × β) :=
  m.filter fun p => p.1 != k

/-- The method `Map.prototype.set`: an existing key keeps its place. -/
def mapSet {β : Type} (m : List (Nat × β)) (k : Nat) (v : β) : List (Nat × β) :=
  if m.any (fun p => p.1 == k) then m.map fun p => if p.1 == k then (k, v) else p
  else m ++ [(k, v)]

/-- The option rows built by the loop `for (let i = 0; i < 4; i++)` of
`addTestItem` (lines 65-92).  The inputs are of type `text`, so the assignment
`input.value = ...` stores the string without its line breaks. -/
def newOptionRows (data : Option TestData) : List OptionRow :=
  let correctIndex := nullish (dataCorrectIndex data) (.number 0)
  (List.range 4).map fun i =>
    { value := stripNewlines (jsOr (dataOption data i) "")
      checked := strictEqIndex i correctIndex }

/-- The editor instance of lines 46-56: created, and given the question as
content, when the helpers exist.  `render q` is what the external editor's
`getHTML()` returns after `setContent(q)`. -/
def newEditor (render : String → String) (helpers : Bool) (data : Option TestData) :
    Option Editor :=
  if helpers then some { html := render (jsOr (dataQuestion data) "") } else none

/-- The wrapper element that `addTestItem` builds. -/
def newRow (helpers : Bool) (testId : Nat) (data : Option TestData) : Row :=
  { testId := testId
    questionText := if helpers then "" else jsOr (dataQuestion data) ""
    optionRows := newOptionRows data }

/-- The function `addTestItem(data = null)`. -/
def addTestItem (render : String → String) (st : AdminState) (data : Option TestData) :
    AdminState :=
  if !st.testsListEl then st
  else if !st.tiptapReady then
    { st with pendingTestQueue := st.pendingTestQueue ++ [data] }
  else
    let testId := st.testCounter
    { st with
      testCounter := st.testCounter + 1
      testEditors := mapSet st.testEditors testId (newEditor render st.helpers data)
      rows := st.rows ++ [newRow st.helpers testId data] }

/-- The click handler of the remove button of the wrapper `test-testId`
(lines 98-104): detaches the wrapper and deletes its editor entry.  The pool
`window.tiptapEditors.tests`, which no function of admin.js reads, is left out
of the state. -/
def removeClick (st : AdminState) (testId : Nat) : AdminState :=
  { st with
    rows := st.rows.filter fun r => r.testId != testId
    testEditors := mapDelete st.testEditors testId }

/-- A change event on checkbox `i` of a wrapper: the browser sets the
checkbox's `checked` to `v`, then the listener of lines 81-87 unchecks every
other checkbox when the box is now checked. -/
def changeEvent (row : Row) (i : Nat) (v : Bool) : Row :=
  if i < row.optionRows.length then
    let set := row.optionRows.mapIdx fun idx o => if idx = i then { o with checked := v } else o
    if v then
      { row with
        optionRows := set.mapIdx fun idx o => if idx ≠ i then { o with checked := false } else o }
    else { row with optionRows := set }
  else row

/-- One element of the array that `collectTests` returns. -/
structure TestItem where
  question : String
  options : List String
  correct_index : Int
  deriving DecidableEq, Repr

/-- The body of the `forEach` callback of `collectTests` for one wrapper. -/
def collectRow (testEditors : List (Nat × Option Editor)) (row : Row) : TestItem :=
  let question :=
    match mapGet testEditors row.testId with
    | some (some richEditor) => richEditor.html
    | _ => jsOr (some (jsTrim row.questionText)) ""
  let options := row.optionRows.map fun o => jsTrim o.value
  let correctIndex := jsFindIndex (fun c => c) (row.optionRows.map fun o => o.checked)
  { question := question
    options := options
    correct_index := if correctIndex < 0 then 0 else correctIndex }

/-- The function `collectTests()`. -/
def collectTests (st : AdminState) : List TestItem :=
  if !st.testsListEl then []
  else st.rows.map (collectRow st.testEditors)

/-- The function `hydrateEditors()`, restricted to the tests list (lines
175-184): the editor map and the list are emptied, then every initial test is
added. -/
def hydrateEditors (render : String → String) (st : AdminState) : AdminState :=
  if st.testsListEl then
    st.initialTests.foldl (addTestItem render) { st with testEditors := [], rows := [] }
  else st

/-- The loop `while (pendingTestQueue.length) addTestItem(pendingTestQueue.shift())`
with a bound on the number of iterations; `none` when the bound is used up
before the queue is empty. -/
def drainQueue (render : String → String) : Nat → AdminState → Option AdminState
  | fuel, st =>
    match st.pendingTestQueue with
    | [] => some st
    | data :: rest =>
      match fuel with
      | 0 => none
      | fuel + 1 =>
        drainQueue render fuel (addTestItem render { st with pendingTestQueue := rest } data)

/-- The `tiptap-ready` listener (lines 199-205). -/
def tiptapReadyHandler (render : String → String) (fuel : Nat) (st : AdminState) :
    Option AdminState :=
  drainQueue render fuel (hydrateEditors render { st with tiptapReady := true })

/-- A user action on the tests list in the ready state. -/
inductive ListOp where
  | add (data : Option TestData)
  | remove (testId : Nat)
  deriving DecidableEq, Repr

/-- The effect of one user action. -/
def applyOp (render : String → String) (st : AdminState) : ListOp → AdminState
  | .add data => addTestItem render st data
  | .remove testId => removeClick st testId

/-- The effect of a sequence of user actions. -/
def runOps (render : String → String) (st : AdminState) (ops : List ListOp) : AdminState :=
  ops.foldl (applyOp render) st

/-- Whether every remove action of the sequence targets a wrapper that is in
the list at the moment of the click. -/
def removesTargetPresent (render : String → String) : AdminState → List ListOp → Bool
  | _, [] => true
  | st, .add data :: ops => removesTargetPresent render (addTestItem render st data) ops
  | st, .remove testId :: ops =>
    st.rows.any (fun r => r.testId == testId)
      && removesTargetPresent render (removeClick st testId) ops

/-- The number of add actions in a sequence. -/
def countAdds : List ListOp → Nat
  | [] => 0
  | .add _ :: ops => countAdds ops + 1
  | .remove _ :: ops => countAdds ops

/-- The number of remove actions in a sequence. -/
def countRemoves : List ListOp → Nat
  | [] => 0
  | .add _ :: ops => countRemoves ops
  | .remove _ :: ops => countRemoves ops + 1

/-- The add actions of a sequence in call order, each with the identifier its
wrapper receives when the counter stands at `c` before the sequence. -/
def addedWithIds : Nat → List ListOp → List (Nat × Option TestData)
  | _, [] => []
  | c, .add data :: ops => (c, data) :: addedWithIds (c + 1) ops
  | c, .remove _ :: ops => addedWithIds c ops

/-- The identifiers named by the remove actions of a sequence. -/
def removedIds : List ListOp → List Nat
  | [] => []
  | .add _ :: ops => removedIds ops
  | .remove testId :: ops => testId :: removedIds ops

/-- The question text of the data handed to `addTestItem`, empty when absent. -/
def specQuestion (data : Option TestData) : String :=
  match data with
  | some d =>
    match d.question with
    | some q => q
    | none => ""
  | none => ""

/-- Option `i` of the data handed to `addTestItem`, empty when absent. -/
def specOption (data : Option TestData) (i : Nat) : String :=
  match data with
  | some d =>
    match d.options with
    | some opts =>
      match opts[i]? with
      | some (some o) => o
      | _ => ""
    | none => ""
  | none => ""

/-- The correct index of the data handed to `addTestItem`: the given one when
it is an integer from 0 to 3, and 0 when it is missing or invalid. -/
def specCorrectIndex (data : Option TestData) : Int :=
  match data with
  | some d =>
    match d.correct_index with
    | .number n => if 0 ≤ n ∧ n ≤ 3 then n else 0
    | _ => 0
  | none => 0

/-- The entry expected for a freshly added wrapper: the rendered question (or
its trimmed text without editor), the four options without line breaks and
trimmed, and the correct index. -/
def freshItem (render : String → String) (helpers : Bool) (data : Option TestData) : TestItem :=
  { question := if helpers then render (specQuestion data) else jsTrim (specQuestion data)
    options := (List.range 4).map fun i => jsTrim (stripNewlines (specOption data i))
    correct_index := specCorrectIndex data }

/-- The wrappers created for a list of requests when the counter stands at `c`. -/
def rowsFrom (helpers : Bool) : Nat → List (Option TestData) → List Row
  | _, [] => []
  | c, data :: rest => newRow helpers c data :: rowsFrom helpers (c + 1) rest

/-- Whether checkbox `i` of a wrapper exists and is checked. -/
def isChecked (row : Row) (i : Nat) : Bool :=
  match row.optionRows[i]? with
  | some o => o.checked
  | none => false

/-- The effect of a sequence of change events `(i, v)` on a wrapper. -/
def runChanges (row : Row) (events : List (Nat × Bool)) : Row :=
  events.foldl (fun r e => changeEvent r e.1 e.2) row

/-- The surviving add actions: those whose identifier no remove action names. -/
def survivors (c : Nat) (ops : List ListOp) : List (Nat × Option TestData) :=
  (addedWithIds c ops).filter fun p => !(removedIds ops).contains p.1

/-! ## Theme toggle (app.js 3-26) -/

/-- The root element's `data-theme` attribute and the `theme` entry of
`localStorage`; `none` for an absent attribute or entry. -/
structure ThemeState where
  dataTheme : Option String
  stored : Option String
  deriving DecidableEq, Repr

/-- The page-load code of lines 8-11: a truthy stored value becomes the
attribute. -/
def loadTheme (s : ThemeState) : ThemeState :=
  match s.stored with
  | some storedTheme => if storedTheme = "" then s else { s with dataTheme := some storedTheme }
  | none => s

/-- The click handler of `#themeToggle` (lines 15-25). -/
def themeToggleClick (s : ThemeState) : ThemeState :=
  let current := s.dataTheme
  let next := if current = some "dark" then "" else "dark"
  if next ≠ "" then { dataTheme := some next, stored := some next }
  else { dataTheme := none, stored := none }

/-! ## Test-taking widget (app.js 28-53) -/

/-- JavaScript `a === b` on the results of `Number(...)`; `none` is `NaN`,
which equals nothing. -/
def numberStrictEq (a b : Option Int) : Bool :=
  match a, b with
  | some x, some y => x == y
  | _, _ => false

/-- One `.test-option` button: `Number(dataset.index)` and its class list. -/
structure OptionButton where
  index : Option Int
  classList : List String
  deriving DecidableEq, Repr

/-- One `.test-question` block: `Number(dataset.correct)`, its option buttons
and the closure variable `answered`. -/
structure TestBlock where
  correctIndex : Option Int
  options : List OptionButton
  answered : Bool
  deriving DecidableEq, Repr

/-- The method `classList.add`. -/
def classListAdd (classes : List String) (c : String) : List String :=
  if c ∈ classes then classes else classes ++ [c]

/-- The click handler of the option button at position `k` of a block (lines
37-51); a click on a position without button reaches no handler. -/
def optionClick (block : TestBlock) (k : Nat) : TestBlock :=
  match block.options[k]? with
  | none => block
  | some btn =>
    if block.answered then block
    else
      let index := btn.index
      { block with
        answered := true
        options := block.options.map fun optionBtn =>
          if numberStrictEq optionBtn.index block.correctIndex then
            { optionBtn with classList := classListAdd optionBtn.classList "correct" }
          else if numberStrictEq optionBtn.index index then
            { optionBtn with classList := classListAdd optionBtn.classList "wrong" }
          else optionBtn }

/-- Whether a button carries a given tag. -/
def hasTag (btn : OptionButton) (tag : String) : Bool :=
  btn.classList.contains tag

/-- A block as the page delivers it: unanswered, no option tagged, every
option with a numeric index, no index twice. -/
def freshBlock (block : TestBlock) : Prop :=
  block.answered = false
  ∧ (∀ o ∈ block.options, hasTag o "correct" = false ∧ hasTag o "wrong" = false)
  ∧ (∀ o ∈ block.options, o.index ≠ none)
  ∧ (block.options.map fun o => o.index).Nodup

/-! ## Image insertion (tiptap.js 32-48 and 179-196) -/

/-- The file picked in the file input, by its `size` in bytes. -/
structure UploadFile where
  size : Nat
  deriving DecidableEq, Repr

/-- The JSON body of the upload endpoint's answer. -/
structure ResponseBody where
  detail : Option String
  url : String
  path : String
  deriving DecidableEq, Repr

/-- The answer of `fetch('/api/upload-image')`: `response.ok` and the parsed
body, `none` when the body is not JSON. -/
structure Response where
  ok : Bool
  body : Option ResponseBody
  deriving DecidableEq, Repr

/-- The attributes handed to `setImage`. -/
structure ImageAttrs where
  src : String
  dataPath : String
  alt : String
  deriving DecidableEq, Repr

/-- What the `onchange` handler of `insertImage` did: the `alert` messages
shown, the images inserted into the editor, the files sent to the endpoint,
and the message of the error with which the handler's promise was rejected
(nothing catches it). -/
structure InsertOutcome where
  alerts : List String
  images : List ImageAttrs
  uploads : List UploadFile
  rejected : Option String
  deriving DecidableEq, Repr

/-- The function `uploadImage(file)`: the thrown error's message or the parsed
body of a success response. -/
def uploadImage (server : UploadFile → Response) (file : UploadFile) :
    Except String ResponseBody :=
  let response := server file
  if !response.ok then
    let detail := match response.body with
      | some data => data.detail
      | none => none
    .error (jsOr detail "Ошибка загрузки изображения")
  else
    match response.body with
    | some data => .ok data
    | none => .error "SyntaxError"

/-- The `onchange` handler installed by `insertImage` (lines 184-193), for the
file `input.files?.[0]`. -/
def insertImageChange (server : UploadFile → Response) (file : Option UploadFile) :
    InsertOutcome :=
  match file with
  | none => { alerts := [], images := [], uploads := [], rejected := none }
  | some f =>
    if f.size > 5 * 1024 * 1024 then
      { alerts := ["Файл больше 5 МБ"], images := [], uploads := [], rejected := none }
    else
      match uploadImage server f with
      | .error msg => { alerts := [], images := [], uploads := [f], rejected := some msg }
      | .ok result =>
        { alerts := []
          images := [{ src := result.url, dataPath := result.path, alt := "" }]
          uploads := [f]
          rejected := none }

/-- The sample block of the specification: four options indexed 0 to 3, the
correct index 1. -/
def sampleBlock : TestBlock :=
  { correctIndex := some 1
    options := [⟨some 0, ["test-option"]⟩, ⟨some 1, ["test-option"]⟩,
      ⟨some 2, ["test-option"]⟩, ⟨some 3, ["test-option"]⟩]
    answered := false }

/-- A ready page with an empty tests list. -/
def readyState : AdminState :=
  { testsListEl := true
    helpers := true
    initialTests := []
    testEditors := []
    testCounter := 0
    tiptapReady := true
    pendingTestQueue := []
    rows := [] }

/-- A page before readiness that carries one initial test. -/
def loadingState : AdminState :=
  { testsListEl := true
    helpers := true
    initialTests := [some { question := some "q0", options := some [some "x"], correct_index := .number 3 }]
    testEditors := []
    testCounter := 0
    tiptapReady := false
    pendingTestQueue := []
    rows := [] }

/-- A sample test with two options and the third checkbox marked correct. -/
def sampleData : TestData :=
  { question := some "q", options := some [some " a ", some "b"], correct_index := .number 2 }

/-- A sample rendering of editor content. -/
def sampleRender (s : String) : String :=
  "<p>" ++ s ++ "</p>"

instance (s : ParsedSection) : Decidable (standsFor s) := by
  unfold standsFor
  infer_instance

/-- Two sections with the nodes that stand for them; the second body ends in a
run of text. -/
def sampleSections : List ParsedSection :=
  [ { task := { title := "A", html := "<p>1</p>" }
      heading := elementNode "H3" "<h3>A</h3>" "A"
      body := [elementNode "P" "<p>1</p>" "1"] },
    { task := { title := "B", html := "<p>2<b>x</b></p>tail" }
      heading := elementNode "H3" "<h3>B</h3>" "B"
      body := [elementNode "P" "<p>2<b>x</b></p>" "2x", textNode "tail"] } ]

/-- A sample test whose options carry surrounding white space, line breaks, a
null entry and a tab. -/
def breakData : TestData :=
  { question := some "q"
    options := some [some " a ", some "b\nc", none, some "\td\r\n"]
    correct_index := .number 1 }

/-- A sample sequence of actions: two adds, the removal of the first wrapper,
another add. -/
def sampleOps : List ListOp :=
  [.add (some sampleData), .add (some breakData), .remove 0, .add none]

/-! ## Theorems: content splitter -/

theorem join_nil_eq : String.join [] = "" := rfl

theorem join_cons_eq (s : String) (l : List String) :
    String.join (s :: l) = s ++ String.join l := by
  apply String.ext
  simp [String.data_join]

theorem isH3_eq_spec (n : Node) : isH3 n = specIsHeading n := by
  unfold isH3 specIsHeading
  cases h : n.tagName with
  | none => rfl
  | some tag =>
    by_cases ht : tag = "H3"
    · simp [ht]
    · simp [ht]

theorem nodeMarkup_eq_spec (n : Node) : nodeMarkup n = specMarkup n := by
  unfold nodeMarkup specMarkup jsOr
  cases n.outerHTML <;> rfl

theorem title_eq_spec (n : Node) : jsOr (some n.textContent) "Задача" = specTitle n := by
  unfold jsOr specTitle
  rfl

theorem bodyMarkup_cons (n : Node) (ns : List Node) :
    bodyMarkup (n :: ns) = specMarkup n ++ bodyMarkup ns := by
  simp [bodyMarkup, join_cons_eq]

theorem extract_eq_finish (nodes : List Node) :
    extractTasksFromEditor nodes
      = finishSplit (nodes.foldl splitStep { tasks := [], current := none }) := rfl

/-- Running the loop from a state with an open section: the open section
absorbs the nodes up to the next heading, and each heading opens a section. -/
theorem fold_open_section (nodes : List Node) (tasks : List Task) (cur : Task) :
    finishSplit (nodes.foldl splitStep { tasks := tasks, current := some cur })
      = tasks ++ [{ cur with html := cur.html ++ bodyMarkup (bodyNodes nodes) }]
          ++ headingSections nodes := by
  induction nodes generalizing tasks cur with
  | nil => simp [finishSplit, bodyMarkup, bodyNodes, headingSections, join_nil_eq]
  | cons n rest ih =>
    cases h : specIsHeading n with
    | true =>
      simp only [List.foldl_cons, splitStep, isH3_eq_spec, h, if_true, title_eq_spec]
      rw [ih]
      simp [bodyNodes, h, headingSections, bodyMarkup, join_nil_eq]
    | false =>
      simp only [List.foldl_cons, splitStep, isH3_eq_spec, h, Bool.false_eq_true, if_false,
        nodeMarkup_eq_spec]
      rw [ih]
      have hb : bodyNodes (n :: rest) = n :: bodyNodes rest := by
        simp [bodyNodes, h]
      simp [hb, bodyMarkup_cons, headingSections, h, String.append_assoc]

theorem extract_eq_spec (nodes : List Node) :
    extractTasksFromEditor nodes = specSections nodes := by
  cases nodes with
  | nil => rfl
  | cons n rest =>
    rw [extract_eq_finish]
    cases h : specIsHeading n with
    | true =>
      simp only [List.foldl_cons, splitStep, isH3_eq_spec, h, if_true, title_eq_spec]
      rw [fold_open_section]
      simp [specSections, headingSections, h]
    | false =>
      simp only [List.foldl_cons, splitStep, isH3_eq_spec, h, Bool.false_eq_true, if_false,
        nodeMarkup_eq_spec]
      rw [fold_open_section]
      have hb : bodyNodes (n :: rest) = n :: bodyNodes rest := by
        simp [bodyNodes, h]
      simp [specSections, headingSections, h, hb, bodyMarkup_cons]

theorem placeholder_ne_empty : ("Задача" : String) ≠ "" := by decide

theorem specTitle_ne_empty (n : Node) : specTitle n ≠ "" := by
  unfold specTitle
  by_cases h : n.textContent = ""
  · simp [h]
  · simp [h]

theorem headingSections_titles (nodes : List Node) :
    (headingSections nodes).map Task.title = (nodes.filter specIsHeading).map specTitle := by
  induction nodes with
  | nil => rfl
  | cons n rest ih =>
    cases h : specIsHeading n <;> simp [headingSections, h, ih]

theorem bodyNodes_not_heading (nodes : List Node) (n : Node) (h : n ∈ bodyNodes nodes) :
    specIsHeading n = false := by
  have := List.mem_takeWhile_imp h
  simpa using this

theorem headingSections_title_ne_empty (nodes : List Node) :
    ∀ t ∈ headingSections nodes, t.title ≠ "" := by
  induction nodes with
  | nil => simp [headingSections]
  | cons n rest ih =>
    cases h : specIsHeading n with
    | true =>
      simp only [headingSections, h, if_true, List.mem_cons]
      rintro t (rfl | ht)
      · exact specTitle_ne_empty _
      · exact ih t ht
    | false => simpa [headingSections, h] using ih

/-- Every title the splitter returns is non-empty. -/
theorem extract_title_ne_empty (nodes : List Node) :
    ∀ t ∈ extractTasksFromEditor nodes, t.title ≠ "" := by
  rw [extract_eq_spec]
  cases nodes with
  | nil => simp [specSections]
  | cons n rest =>
    intro t ht
    simp only [specSections, List.mem_append] at ht
    rcases ht with ht | ht
    · cases h : specIsHeading n with
      | true => simp [h] at ht
      | false =>
        simp [h] at ht
        rw [ht]
        exact placeholder_ne_empty
    · exact headingSections_title_ne_empty _ t ht

theorem headingSections_append_body (body rest : List Node)
    (hb : ∀ n ∈ body, specIsHeading n = false) :
    headingSections (body ++ rest) = headingSections rest := by
  induction body with
  | nil => rfl
  | cons n ns ih =>
    have hn : specIsHeading n = false := hb n (List.mem_cons_self _ _)
    simp only [List.cons_append, headingSections, hn, Bool.false_eq_true, if_false]
    exact ih fun m hm => hb m (List.mem_cons_of_mem _ hm)

theorem bodyNodes_parsedNodes (secs : List ParsedSection) (hs : ∀ s ∈ secs, standsFor s) :
    bodyNodes (parsedNodes secs) = [] := by
  cases secs with
  | nil => rfl
  | cons s rest =>
    have h := (hs s (List.mem_cons_self _ _)).1
    simp [parsedNodes, bodyNodes, h]

theorem bodyNodes_append_parsed (body : List Node) (secs : List ParsedSection)
    (hb : ∀ n ∈ body, specIsHeading n = false) (hs : ∀ s ∈ secs, standsFor s) :
    bodyNodes (body ++ parsedNodes secs) = body := by
  have hp : ∀ n ∈ body, (fun n => !specIsHeading n) n = true := by
    intro n hn
    simp [hb n hn]
  unfold bodyNodes
  rw [List.takeWhile_append_of_pos hp]
  have := bodyNodes_parsedNodes secs hs
  unfold bodyNodes at this
  rw [this, List.append_nil]

theorem parsedNodes_cons (s : ParsedSection) (rest : List ParsedSection) :
    parsedNodes (s :: rest) = s.heading :: (s.body ++ parsedNodes rest) := by
  simp [parsedNodes]

/-- The sections of a node sequence in which every section is stood for by a
heading node and its body nodes. -/
theorem specSections_parsedNodes (secs : List ParsedSection) (hs : ∀ s ∈ secs, standsFor s) :
    specSections (parsedNodes secs) = secs.map fun s => s.task := by
  have hhead : headingSections (parsedNodes secs) = secs.map fun s => s.task := by
    induction secs with
    | nil => rfl
    | cons s rest ih =>
      obtain ⟨h1, h2, h3, h4, h5⟩ := hs s (List.mem_cons_self _ _)
      have hrest : ∀ x ∈ rest, standsFor x := fun x hx => hs x (List.mem_cons_of_mem _ hx)
      rw [parsedNodes_cons]
      simp only [headingSections, h1, if_true, List.map_cons]
      rw [bodyNodes_append_parsed _ _ h4 hrest, headingSections_append_body _ _ h4, ih hrest, h5]
      have ht : specTitle s.heading = s.task.title := by
        unfold specTitle
        rw [h2]
        simp [h3]
      rw [ht]
  cases secs with
  | nil => rfl
  | cons s rest =>
    rw [← hhead, parsedNodes_cons]
    have h1 := (hs s (List.mem_cons_self _ _)).1
    simp [specSections, h1]

/-! ## Theorems: one wrapper of the quiz list -/

theorem findIndexFrom_none {α : Type} (p : α → Bool) (l : List α) (s : Nat)
    (h : ∀ x ∈ l, p x = false) : findIndexFrom p l s = -1 := by
  induction l generalizing s with
  | nil => rfl
  | cons x xs ih =>
    have hx : p x = false := h x (List.mem_cons_self _ _)
    simp only [findIndexFrom, hx, Bool.false_eq_true, if_false]
    exact ih (s + 1) fun y hy => h y (List.mem_cons_of_mem _ hy)

theorem findIndexFrom_first {α : Type} (p : α → Bool) (l : List α) (s i : Nat) (x : α)
    (hi : l[i]? = some x) (hx : p x = true)
    (hlt : ∀ j y, j < i → l[j]? = some y → p y = false) :
    findIndexFrom p l s = ((s + i : Nat) : Int) := by
  induction l generalizing s i with
  | nil => simp at hi
  | cons a as ih =>
    cases i with
    | zero =>
      simp only [List.getElem?_cons_zero, Option.some.injEq] at hi
      subst hi
      simp [findIndexFrom, hx]
    | succ k =>
      have ha : p a = false := hlt 0 a (Nat.succ_pos k) (by simp)
      simp only [List.getElem?_cons_succ] at hi
      simp only [findIndexFrom, ha, Bool.false_eq_true, if_false]
      rw [ih (s + 1) k hi fun j y hj hy => hlt (j + 1) y (Nat.succ_lt_succ hj) (by simpa using hy)]
      congr 1
      omega

theorem findIndexFrom_range {α : Type} (p : α → Bool) (l : List α) (s : Nat) :
    findIndexFrom p l s = -1
      ∨ ((s : Int) ≤ findIndexFrom p l s ∧ findIndexFrom p l s < ((s + l.length : Nat) : Int)) := by
  induction l generalizing s with
  | nil => left; rfl
  | cons a as ih =>
    cases ha : p a with
    | true =>
      right
      simp only [findIndexFrom, ha, if_true, List.length_cons]
      constructor
      · exact le_refl _
      · exact_mod_cast (by omega : s < s + (as.length + 1))
    | false =>
      simp only [findIndexFrom, ha, Bool.false_eq_true, if_false, List.length_cons]
      rcases ih (s + 1) with h | ⟨h1, h2⟩
      · left; exact h
      · right
        constructor
        · have : ((s : Nat) : Int) ≤ ((s + 1 : Nat) : Int) := by exact_mod_cast Nat.le_succ s
          exact le_trans this h1
        · have e : s + 1 + as.length = s + (as.length + 1) := by omega
          rw [e] at h2
          exact h2

/-- The `correct_index` computed for a wrapper lies between 0 and the number of
its checkboxes. -/
theorem collectRow_correct_index_range (m : List (Nat × Option Editor)) (row : Row)
    (hlen : 0 < row.optionRows.length) :
    0 ≤ (collectRow m row).correct_index
      ∧ (collectRow m row).correct_index < (row.optionRows.length : Int) := by
  simp only [collectRow, jsFindIndex]
  rcases findIndexFrom_range (fun c => c) (row.optionRows.map fun o => o.checked) 0
    with h | ⟨h1, h2⟩
  · rw [h]
    simp only [Int.reduceNeg, Int.reduceLT, if_true]
    exact ⟨le_refl _, by exact_mod_cast hlen⟩
  · have hn : ¬ findIndexFrom (fun c => c) (row.optionRows.map fun o => o.checked) 0 < 0 := by
      simp only [Nat.cast_zero] at h1
      omega
    simp only [hn, if_false]
    simp only [List.length_map, Nat.zero_add, Nat.cast_zero] at h1 h2
    exact ⟨h1, h2⟩

theorem collectRow_first_checked (m : List (Nat × Option Editor)) (row : Row) (i : Nat)
    (hi : isChecked row i = true) (hlt : ∀ j, j < i → isChecked row j = false) :
    (collectRow m row).correct_index = (i : Int) := by
  have hget : (row.optionRows.map fun o => o.checked)[i]? = some true := by
    unfold isChecked at hi
    cases h : row.optionRows[i]? with
    | none => simp [h] at hi
    | some o =>
      simp only [h] at hi
      simp [List.getElem?_map, h, hi]
  have hbefore : ∀ j y, j < i → (row.optionRows.map fun o => o.checked)[j]? = some y
      → (fun c : Bool => c) y = false := by
    intro j y hj hy
    have := hlt j hj
    unfold isChecked at this
    cases h : row.optionRows[j]? with
    | none => simp [List.getElem?_map, h] at hy
    | some o =>
      simp only [h] at this
      simp only [List.getElem?_map, h, Option.map_some', Option.some.injEq] at hy
      rw [← hy]
      exact this
  have := findIndexFrom_first (fun c => c) _ 0 i true hget rfl hbefore
  simp only [collectRow, jsFindIndex, this, Nat.zero_add]
  have hn : ¬ ((i : Nat) : Int) < 0 := by omega
  simp [hn]

theorem collectRow_none_checked (m : List (Nat × Option Editor)) (row : Row)
    (h : ∀ j, isChecked row j = false) :
    (collectRow m row).correct_index = 0 := by
  have hall : ∀ x ∈ (row.optionRows.map fun o => o.checked), (fun c : Bool => c) x = false := by
    intro x hx
    rcases List.getElem?_of_mem hx with ⟨j, hj⟩
    have := h j
    unfold isChecked at this
    cases ho : row.optionRows[j]? with
    | none => simp [List.getElem?_map, ho] at hj
    | some o =>
      simp only [ho] at this
      simp only [List.getElem?_map, ho, Option.map_some', Option.some.injEq] at hj
      rw [← hj]
      exact this
  simp [collectRow, jsFindIndex, findIndexFrom_none _ _ 0 hall]

theorem changeEvent_out_of_range (row : Row) (i : Nat) (v : Bool)
    (h : ¬ i < row.optionRows.length) : changeEvent row i v = row := by
  simp [changeEvent, h]

theorem changeEvent_length (row : Row) (i : Nat) (v : Bool) :
    (changeEvent row i v).optionRows.length = row.optionRows.length := by
  unfold changeEvent
  by_cases h : i < row.optionRows.length
  · cases v <;> simp [h]
  · simp [h]

/-- After an event that checks checkbox `i`, box `i` is the only checked one. -/
theorem isChecked_changeEvent_true (row : Row) (i a : Nat) (h : i < row.optionRows.length) :
    isChecked (changeEvent row i true) a = true ↔ a = i := by
  unfold isChecked changeEvent
  simp only [h, if_true, List.getElem?_mapIdx]
  cases ho : row.optionRows[a]? with
  | none =>
    have : ¬ a < row.optionRows.length := by
      intro ha
      rw [List.getElem?_eq_getElem ha] at ho
      exact Option.noConfusion ho
    simp only [Option.map_none']
    constructor
    · intro hf; exact absurd hf (by simp)
    · intro ha; exact absurd (ha ▸ h) this
  | some o =>
    by_cases hai : a = i
    · simp [hai]
    · simp [hai]

/-- An event that unchecks a checkbox checks no checkbox. -/
theorem isChecked_changeEvent_false (row : Row) (i a : Nat)
    (h : isChecked (changeEvent row i false) a = true) : isChecked row a = true := by
  by_cases hi : i < row.optionRows.length
  · unfold isChecked changeEvent at h
    simp only [hi, if_true, Bool.false_eq_true, if_false, List.getElem?_mapIdx] at h
    unfold isChecked
    cases ho : row.optionRows[a]? with
    | none => simp [ho] at h
    | some o =>
      by_cases hai : a = i
      · subst hai
        simp [ho] at h
      · simpa [ho, hai] using h
  · rwa [changeEvent_out_of_range row i false hi] at h

/-- At most one checkbox of the wrapper is checked. -/
theorem changeEvent_exclusive (row : Row) (i : Nat) (v : Bool)
    (h : ∀ a b, isChecked row a = true → isChecked row b = true → a = b) :
    ∀ a b, isChecked (changeEvent row i v) a = true
      → isChecked (changeEvent row i v) b = true → a = b := by
  intro a b ha hb
  by_cases hi : i < row.optionRows.length
  · cases v with
    | true =>
      rw [isChecked_changeEvent_true row i a hi] at ha
      rw [isChecked_changeEvent_true row i b hi] at hb
      rw [ha, hb]
    | false =>
      exact h a b (isChecked_changeEvent_false row i a ha) (isChecked_changeEvent_false row i b hb)
  · rw [changeEvent_out_of_range row i v hi] at ha hb
    exact h a b ha hb

theorem newOptionRows_length (data : Option TestData) : (newOptionRows data).length = 4 := by
  simp [newOptionRows]

theorem newOptionRows_getElem (data : Option TestData) (i : Nat) (h : i < 4) :
    (newOptionRows data)[i]? = some
      { value := stripNewlines (jsOr (dataOption data i) "")
        checked := strictEqIndex i (nullish (dataCorrectIndex data) (.number 0)) } := by
  simp [newOptionRows, List.getElem?_map, List.getElem?_range h]

theorem isChecked_newRow (helpers : Bool) (testId : Nat) (data : Option TestData) (a : Nat)
    (h : isChecked (newRow helpers testId data) a = true) :
    a < 4 ∧ nullish (dataCorrectIndex data) (.number 0) = .number (a : Int) := by
  unfold isChecked newRow at h
  simp only at h
  by_cases ha : a < 4
  · rw [newOptionRows_getElem data a ha] at h
    simp only at h
    refine ⟨ha, ?_⟩
    unfold strictEqIndex at h
    split at h
    · rename_i n hn
      rw [hn]
      simp only [beq_iff_eq] at h
      rw [h]
    · exact absurd h (by simp)
  · have : (newOptionRows data)[a]? = none := by
      apply List.getElem?_eq_none
      rw [newOptionRows_length]
      omega
    simp [this] at h

theorem newRow_exclusive (helpers : Bool) (testId : Nat) (data : Option TestData) :
    ∀ a b, isChecked (newRow helpers testId data) a = true
      → isChecked (newRow helpers testId data) b = true → a = b := by
  intro a b ha hb
  have h1 := (isChecked_newRow helpers testId data a ha).2
  have h2 := (isChecked_newRow helpers testId data b hb).2
  rw [h1] at h2
  injection h2 with h3
  exact_mod_cast h3

theorem runChanges_length (row : Row) (events : List (Nat × Bool)) :
    (runChanges row events).optionRows.length = row.optionRows.length := by
  unfold runChanges
  induction events generalizing row with
  | nil => rfl
  | cons e es ih =>
    simp only [List.foldl_cons]
    rw [ih, changeEvent_length]

theorem runChanges_exclusive (row : Row) (events : List (Nat × Bool))
    (h : ∀ a b, isChecked row a = true → isChecked row b = true → a = b) :
    ∀ a b, isChecked (runChanges row events) a = true
      → isChecked (runChanges row events) b = true → a = b := by
  unfold runChanges
  induction events generalizing row with
  | nil => exact h
  | cons e es ih =>
    simp only [List.foldl_cons]
    exact ih _ (changeEvent_exclusive row e.1 e.2 h)

/-! ## Theorems: the editor map -/

theorem mapGet_append_self {β : Type} (m : List (Nat × β)) (k : Nat) (v : β)
    (h : m.any (fun p => p.1 == k) = false) : mapGet (m ++ [(k, v)]) k = some v := by
  induction m with
  | nil => simp [mapGet]
  | cons p ps ih =>
    simp only [List.any_cons, Bool.or_eq_false_iff] at h
    have ih1 := ih h.2
    unfold mapGet at ih1 ⊢
    simp only [List.cons_append, List.find?_cons, h.1]
    exact ih1

theorem mapGet_mapSet_self {β : Type} (m : List (Nat × β)) (k : Nat) (v : β) :
    mapGet (mapSet m k v) k = some v := by
  unfold mapSet
  cases h : m.any (fun p => p.1 == k) with
  | false =>
    simp only [Bool.false_eq_true, if_false]
    exact mapGet_append_self m k v h
  | true =>
    simp only [if_true]
    induction m with
    | nil => simp at h
    | cons p ps ih =>
      unfold mapGet at ih ⊢
      simp only [List.map_cons, List.find?_cons]
      cases hp : p.1 == k with
      | true => simp
      | false =>
        simp only [Bool.false_eq_true, if_false, hp]
        simp only [List.any_cons, hp, Bool.false_or] at h
        exact ih h

theorem mapGet_mapSet_ne {β : Type} (m : List (Nat × β)) (k j : Nat) (v : β) (h : j ≠ k) :
    mapGet (mapSet m k v) j = mapGet m j := by
  have hkj : (k == j) = false := by simpa using fun e : k = j => h e.symm
  unfold mapSet
  cases hany : m.any (fun p => p.1 == k) with
  | false =>
    simp only [Bool.false_eq_true, if_false]
    unfold mapGet
    rw [List.find?_append]
    cases hf : m.find? (fun p => p.1 == j) with
    | some q => simp
    | none => simp [hkj]
  | true =>
    simp only [if_true]
    clear hany
    induction m with
    | nil => rfl
    | cons p ps ih =>
      unfold mapGet at ih ⊢
      simp only [List.map_cons, List.find?_cons]
      cases hp : p.1 == k with
      | true =>
        have hpj : (p.1 == j) = false := by
          have e : p.1 = k := by simpa using hp
          rw [e]; exact hkj
        simp only [if_true, hkj, hpj]
        exact ih
      | false =>
        simp only [Bool.false_eq_true, if_false]
        cases hpj : p.1 == j with
        | true => simp
        | false => exact ih

theorem mapGet_mapDelete_ne {β : Type} (m : List (Nat × β)) (k j : Nat) (h : j ≠ k) :
    mapGet (mapDelete m k) j = mapGet m j := by
  unfold mapGet mapDelete
  induction m with
  | nil => rfl
  | cons p ps ih =>
    simp only [List.filter_cons, List.find?_cons]
    cases hpk : p.1 != k with
    | true =>
      simp only [if_true, List.find?_cons]
      cases hpj : p.1 == j with
      | true => rfl
      | false => exact ih
    | false =>
      have e : p.1 = k := by simpa using hpk
      have hpj : (p.1 == j) = false := by
        rw [e]; simpa using fun e2 : k = j => h e2.symm
      simp only [Bool.false_eq_true, if_false, hpj]
      exact ih

/-! ## Theorems: the entry collected for a fresh wrapper -/

theorem findIndex_four (n : Int) :
    jsFindIndex (fun c : Bool => c) [n == 0, n == 1, n == 2, n == 3]
      = if 0 ≤ n ∧ n ≤ 3 then n else -1 := by
  by_cases h0 : n = 0
  · subst h0; decide
  by_cases h1 : n = 1
  · subst h1; decide
  by_cases h2 : n = 2
  · subst h2; decide
  by_cases h3 : n = 3
  · subst h3; decide
  have hr : ¬ (0 ≤ n ∧ n ≤ 3) := by omega
  simp [jsFindIndex, findIndexFrom, h0, h1, h2, h3, hr]

theorem newOptionRows_checked (data : Option TestData) :
    (newOptionRows data).map (fun o => o.checked)
      = (List.range 4).map fun i => strictEqIndex i (nullish (dataCorrectIndex data) (.number 0)) := by
  simp [newOptionRows, List.map_map, Function.comp_def]

theorem range_four : List.range 4 = [0, 1, 2, 3] := by decide

theorem jsOr_dataQuestion (data : Option TestData) :
    jsOr (dataQuestion data) "" = specQuestion data := by
  unfold jsOr dataQuestion specQuestion
  cases data with
  | none => rfl
  | some d =>
    simp only [Option.bind]
    cases hq : d.question with
    | none => rfl
    | some q =>
      by_cases h : q = ""
      · simp [h]
      · simp [h]

theorem jsOr_dataOption (data : Option TestData) (i : Nat) :
    jsOr (dataOption data i) "" = specOption data i := by
  unfold jsOr dataOption specOption
  cases data with
  | none => rfl
  | some d =>
    simp only [Option.bind]
    cases ho : d.options with
    | none => rfl
    | some opts =>
      simp only
      cases hi : opts[i]? with
      | none => rfl
      | some oo =>
        cases oo with
        | none => rfl
        | some o =>
          simp only [Option.join]
          by_cases h : o = ""
          · simp [h, Option.bind]
          · simp [h, Option.bind]

theorem jsOr_some_empty (s : String) : jsOr (some s) "" = s := by
  unfold jsOr
  by_cases h : s = ""
  · simp [h]
  · simp [h]

theorem collectRow_newRow_correct_index (m : List (Nat × Option Editor)) (helpers : Bool)
    (testId : Nat) (data : Option TestData) :
    (collectRow m (newRow helpers testId data)).correct_index = specCorrectIndex data := by
  simp only [collectRow, newRow, newOptionRows_checked, range_four, List.map_cons, List.map_nil]
  unfold specCorrectIndex dataCorrectIndex
  cases data with
  | none => simp [nullish, strictEqIndex, jsFindIndex, findIndexFrom]
  | some d =>
    simp only
    cases hv : d.correct_index with
    | number n =>
      simp only [nullish, strictEqIndex, Nat.cast_zero, Nat.cast_one, Nat.cast_ofNat]
      rw [findIndex_four]
      by_cases hr : 0 ≤ n ∧ n ≤ 3
      · have : ¬ n < 0 := by omega
        simp [hr, this]
      · simp [hr]
    | undefined => simp [nullish, strictEqIndex, jsFindIndex, findIndexFrom]
    | null => simp [nullish, strictEqIndex, jsFindIndex, findIndexFrom]
    | string s => simp [nullish, strictEqIndex, jsFindIndex, findIndexFrom]
    | other => simp [nullish, strictEqIndex, jsFindIndex, findIndexFrom]

theorem collectRow_newRow_options (m : List (Nat × Option Editor)) (helpers : Bool)
    (testId : Nat) (data : Option TestData) :
    (collectRow m (newRow helpers testId data)).options
      = (List.range 4).map fun i => jsTrim (stripNewlines (specOption data i)) := by
  simp [collectRow, newRow, newOptionRows, List.map_map, Function.comp_def, jsOr_dataOption]

theorem collectRow_newRow_question (render : String → String) (m : List (Nat × Option Editor))
    (helpers : Bool) (testId : Nat) (data : Option TestData)
    (hm : mapGet m testId = some (newEditor render helpers data)) :
    (collectRow m (newRow helpers testId data)).question
      = if helpers then render (specQuestion data) else jsTrim (specQuestion data) := by
  cases helpers with
  | true => simp [collectRow, newRow, hm, newEditor, jsOr_dataQuestion]
  | false => simp [collectRow, newRow, hm, newEditor, jsOr_dataQuestion, jsOr_some_empty]

/-- The entry collected for a wrapper as `addTestItem` built it. -/
theorem collectRow_newRow (render : String → String) (m : List (Nat × Option Editor))
    (helpers : Bool) (testId : Nat) (data : Option TestData)
    (hm : mapGet m testId = some (newEditor render helpers data)) :
    collectRow m (newRow helpers testId data) = freshItem render helpers data := by
  have h1 := collectRow_newRow_question render m helpers testId data hm
  have h2 := collectRow_newRow_options m helpers testId data
  have h3 := collectRow_newRow_correct_index m helpers testId data
  cases hc : collectRow m (newRow helpers testId data) with
  | mk q o c =>
    rw [hc] at h1 h2 h3
    simp only at h1 h2 h3
    simp only [freshItem, TestItem.mk.injEq]
    exact ⟨h1, h2, h3⟩

theorem stripNewlines_of_no_break (s : String)
    (h : ∀ c ∈ s.data, c.toNat ≠ 0x0A ∧ c.toNat ≠ 0x0D) : stripNewlines s = s := by
  unfold stripNewlines
  have : s.data.filter (fun c => c.toNat != 0x0A && c.toNat != 0x0D) = s.data := by
    apply List.filter_eq_self.mpr
    intro c hc
    have := h c hc
    simp [this.1, this.2]
  rw [this]

/-! ## Theorems: sequences of add and remove actions -/

theorem countAdds_append (a b : List ListOp) : countAdds (a ++ b) = countAdds a + countAdds b := by
  induction a with
  | nil => simp [countAdds]
  | cons op ops ih =>
    cases op with
    | add d => simp only [List.cons_append, countAdds, List.append_eq, ih]; omega
    | remove t => simp only [List.cons_append, countAdds, List.append_eq, ih]

theorem countRemoves_append (a b : List ListOp) :
    countRemoves (a ++ b) = countRemoves a + countRemoves b := by
  induction a with
  | nil => simp [countRemoves]
  | cons op ops ih =>
    cases op with
    | add d => simp only [List.cons_append, countRemoves, List.append_eq, ih]
    | remove t => simp only [List.cons_append, countRemoves, List.append_eq, ih]; omega

theorem removedIds_append (a b : List ListOp) :
    removedIds (a ++ b) = removedIds a ++ removedIds b := by
  induction a with
  | nil => simp [removedIds]
  | cons op ops ih => cases op <;> simp [removedIds, ih]

theorem addedWithIds_append (c : Nat) (a b : List ListOp) :
    addedWithIds c (a ++ b) = addedWithIds c a ++ addedWithIds (c + countAdds a) b := by
  induction a generalizing c with
  | nil => simp [addedWithIds, countAdds]
  | cons op ops ih =>
    cases op with
    | add d =>
      have e : c + 1 + countAdds ops = c + (countAdds ops + 1) := by omega
      simp only [List.cons_append, addedWithIds, countAdds, List.append_eq, ih, e]
    | remove t => simp [addedWithIds, countAdds, ih]

theorem addedWithIds_bounds (c : Nat) (ops : List ListOp) :
    ∀ p ∈ addedWithIds c ops, c ≤ p.1 ∧ p.1 < c + countAdds ops := by
  induction ops generalizing c with
  | nil => simp [addedWithIds]
  | cons op ops ih =>
    cases op with
    | add d =>
      intro p hp
      simp only [addedWithIds, List.mem_cons] at hp
      simp only [countAdds]
      rcases hp with rfl | hp
      · simp only; omega
      · have := ih (c + 1) p hp
        omega
    | remove t =>
      intro p hp
      simp only [addedWithIds] at hp
      simpa [countAdds] using ih c p hp

theorem addedWithIds_nodup (c : Nat) (ops : List ListOp) :
    ((addedWithIds c ops).map Prod.fst).Nodup := by
  induction ops generalizing c with
  | nil => simp [addedWithIds]
  | cons op ops ih =>
    cases op with
    | add d =>
      simp only [addedWithIds, List.map_cons, List.nodup_cons]
      refine ⟨?_, ih (c + 1)⟩
      intro hmem
      rcases List.mem_map.mp hmem with ⟨p, hp, hpc⟩
      have := (addedWithIds_bounds (c + 1) ops p hp).1
      omega
    | remove t => simpa [addedWithIds] using ih c

theorem survivors_nodup (c : Nat) (ops : List ListOp) :
    ((survivors c ops).map Prod.fst).Nodup := by
  unfold survivors
  exact List.Nodup.sublist (List.Sublist.map _ (List.filter_sublist _)) (addedWithIds_nodup c ops)

theorem survivors_bounds (c : Nat) (ops : List ListOp) :
    ∀ p ∈ survivors c ops, p.1 < c + countAdds ops := by
  intro p hp
  unfold survivors at hp
  exact (addedWithIds_bounds c ops p (List.mem_filter.mp hp).1).2

theorem survivors_snoc_add (c : Nat) (ops : List ListOp) (d : Option TestData)
    (hrem : ∀ t ∈ removedIds ops, t < c + countAdds ops) :
    survivors c (ops ++ [.add d]) = survivors c ops ++ [(c + countAdds ops, d)] := by
  unfold survivors
  rw [addedWithIds_append, removedIds_append]
  simp only [addedWithIds, removedIds, List.append_nil, List.filter_append]
  congr 1
  have hnot : c + countAdds ops ∉ removedIds ops := by
    intro hm
    have := hrem _ hm
    omega
  simp [List.filter_cons, hnot]

theorem survivors_snoc_remove (c : Nat) (ops : List ListOp) (t : Nat) :
    survivors c (ops ++ [.remove t]) = (survivors c ops).filter fun p => p.1 != t := by
  unfold survivors
  rw [addedWithIds_append, removedIds_append]
  simp only [addedWithIds, removedIds, List.append_nil, List.filter_filter]
  apply List.filter_congr
  intro p _
  by_cases h1 : p.1 ∈ removedIds ops <;> by_cases h2 : p.1 = t <;> simp [h1, h2]

theorem filter_ne_length {α : Type} (l : List (Nat × α)) (t : Nat)
    (hn : (l.map Prod.fst).Nodup) (ht : t ∈ l.map Prod.fst) :
    (l.filter fun p => p.1 != t).length + 1 = l.length := by
  induction l with
  | nil => simp at ht
  | cons p ps ih =>
    simp only [List.map_cons, List.nodup_cons] at hn
    simp only [List.map_cons, List.mem_cons] at ht
    by_cases hp : p.1 = t
    · have hnot : t ∉ ps.map Prod.fst := hp ▸ hn.1
      have hall : ps.filter (fun q => q.1 != t) = ps := by
        apply List.filter_eq_self.mpr
        intro q hq
        have : q.1 ≠ t := fun e => hnot (e ▸ List.mem_map_of_mem Prod.fst hq)
        simpa using this
      simp [List.filter_cons, hp, hall]
    · have ht2 : t ∈ ps.map Prod.fst := by
        rcases ht with e | h
        · exact absurd e.symm hp
        · exact h
      have := ih hn.2 ht2
      simp [List.filter_cons, hp, this]

theorem runOps_snoc (render : String → String) (st : AdminState) (ops : List ListOp)
    (op : ListOp) : runOps render st (ops ++ [op]) = applyOp render (runOps render st ops) op := by
  simp [runOps, List.foldl_append]

theorem removesTargetPresent_snoc_add (render : String → String) (st : AdminState)
    (ops : List ListOp) (d : Option TestData) :
    removesTargetPresent render st (ops ++ [.add d]) = removesTargetPresent render st ops := by
  induction ops generalizing st with
  | nil => simp [removesTargetPresent]
  | cons op ops ih =>
    cases op with
    | add e => simp [removesTargetPresent, ih]
    | remove t => simp [removesTargetPresent, ih]

theorem removesTargetPresent_snoc_remove (render : String → String) (st : AdminState)
    (ops : List ListOp) (t : Nat) :
    removesTargetPresent render st (ops ++ [.remove t])
      = (removesTargetPresent render st ops
          && (runOps render st ops).rows.any fun r => r.testId == t) := by
  induction ops generalizing st with
  | nil => simp [removesTargetPresent, runOps]
  | cons op ops ih =>
    cases op with
    | add e => simp [removesTargetPresent, ih, runOps, applyOp]
    | remove u => simp [removesTargetPresent, ih, runOps, applyOp, Bool.and_assoc]

/-- The state reached by a valid sequence of add and remove actions from a
ready state with an empty list: the wrappers are those of the surviving add
actions, in call order, and each has its editor entry. -/
theorem runOps_invariant (render : String → String) (st : AdminState)
    (hl : st.testsListEl = true) (hr : st.tiptapReady = true) (he : st.rows = [])
    (ops : List ListOp) (hv : removesTargetPresent render st ops = true) :
    (runOps render st ops).testsListEl = true
    ∧ (runOps render st ops).tiptapReady = true
    ∧ (runOps render st ops).helpers = st.helpers
    ∧ (runOps render st ops).testCounter = st.testCounter + countAdds ops
    ∧ (runOps render st ops).rows
        = (survivors st.testCounter ops).map (fun p => newRow st.helpers p.1 p.2)
    ∧ (∀ p ∈ survivors st.testCounter ops,
        mapGet (runOps render st ops).testEditors p.1 = some (newEditor render st.helpers p.2))
    ∧ (∀ t ∈ removedIds ops, t < st.testCounter + countAdds ops)
    ∧ (survivors st.testCounter ops).length + countRemoves ops = countAdds ops := by
  induction ops using List.reverseRecOn with
  | nil =>
    simp [runOps, survivors, addedWithIds, removedIds, countAdds, countRemoves, hl, hr, he]
  | append_singleton ops op ih =>
    cases op with
    | add d =>
      rw [removesTargetPresent_snoc_add] at hv
      obtain ⟨h1, h2, h3, h4, h5, h6, h7, h8⟩ := ih hv
      rw [runOps_snoc, survivors_snoc_add _ _ _ h7, countAdds_append, countRemoves_append]
      simp only [applyOp, addTestItem, h1, h2, Bool.not_true, Bool.false_eq_true, if_false,
        countAdds, countRemoves, List.map_append, List.map_cons, List.map_nil, h3, h4, h5]
      refine ⟨trivial, trivial, trivial, by omega, trivial, ?_, ?_, ?_⟩
      · intro p hp
        rcases List.mem_append.mp hp with hp | hp
        · have hlt := survivors_bounds _ _ p hp
          rw [mapGet_mapSet_ne _ _ _ _ (by omega)]
          exact h6 p hp
        · simp only [List.mem_singleton] at hp
          subst hp
          exact mapGet_mapSet_self _ _ _
      · intro t ht
        rw [removedIds_append] at ht
        simp only [removedIds, List.append_nil] at ht
        have := h7 t ht
        omega
      · simp only [List.length_append, List.length_singleton]
        omega
    | remove t =>
      rw [removesTargetPresent_snoc_remove, Bool.and_eq_true] at hv
      obtain ⟨h1, h2, h3, h4, h5, h6, h7, h8⟩ := ih hv.1
      have hpres : t ∈ (survivors st.testCounter ops).map Prod.fst := by
        have := hv.2
        rw [h5] at this
        rcases List.any_eq_true.mp this with ⟨r, hr1, hr2⟩
        rcases List.mem_map.mp hr1 with ⟨p, hp, hpr⟩
        have hpt : p.1 = t := by
          rw [← hpr] at hr2
          simpa [newRow] using hr2
        exact List.mem_map.mpr ⟨p, hp, hpt⟩
      have hlen := filter_ne_length _ t (survivors_nodup st.testCounter ops) hpres
      rw [runOps_snoc, survivors_snoc_remove, countAdds_append, countRemoves_append]
      simp only [applyOp, removeClick, h1, h2, h3, h4, h5, countAdds, countRemoves]
      refine ⟨trivial, trivial, trivial, by omega, ?_, ?_, ?_, by omega⟩
      · simp [List.filter_map, Function.comp_def, newRow]
      · intro p hp
        have hp2 := List.mem_filter.mp hp
        have hne : p.1 ≠ t := by simpa using hp2.2
        rw [mapGet_mapDelete_ne _ _ _ hne]
        exact h6 p hp2.1
      · intro u hu
        rw [removedIds_append] at hu
        simp only [removedIds, List.mem_append, List.mem_singleton] at hu
        rcases hu with hu | hu
        · have := h7 u hu
          omega
        · subst hu
          rcases List.mem_map.mp hpres with ⟨p, hp, hpt⟩
          have := survivors_bounds _ _ p hp
          omega

/-- What `collectTests` returns after a valid sequence of add and remove
actions from a ready state with an empty list. -/
theorem collectTests_runOps (render : String → String) (st : AdminState)
    (hl : st.testsListEl = true) (hr : st.tiptapReady = true) (he : st.rows = [])
    (ops : List ListOp) (hv : removesTargetPresent render st ops = true) :
    collectTests (runOps render st ops)
      = (survivors st.testCounter ops).map fun p => freshItem render st.helpers p.2 := by
  obtain ⟨h1, _, _, _, h5, h6, _, _⟩ := runOps_invariant render st hl hr he ops hv
  simp only [collectTests, h1, Bool.not_true, Bool.false_eq_true, if_false, h5, List.map_map]
  apply List.map_congr_left
  intro p hp
  exact collectRow_newRow render _ st.helpers p.1 p.2 (h6 p hp)

/-! ## Theorems: the pending queue and the readiness handler -/

/-- Before readiness every call of `addTestItem` only appends to the queue. -/
theorem addTestItem_not_ready (render : String → String) (st : AdminState)
    (hl : st.testsListEl = true) (hr : st.tiptapReady = false) (ds : List (Option TestData)) :
    ds.foldl (addTestItem render) st
      = { st with pendingTestQueue := st.pendingTestQueue ++ ds } := by
  induction ds generalizing st with
  | nil => simp
  | cons d rest ih =>
    simp only [List.foldl_cons]
    have e : addTestItem render st d
        = { st with pendingTestQueue := st.pendingTestQueue ++ [d] } := by
      simp [addTestItem, hl, hr]
    rw [e]
    refine (ih _ ?_ ?_).trans ?_
    · exact hl
    · exact hr
    · simp

theorem rowsFrom_length (helpers : Bool) (c : Nat) (ds : List (Option TestData)) :
    (rowsFrom helpers c ds).length = ds.length := by
  induction ds generalizing c with
  | nil => rfl
  | cons d rest ih => simp [rowsFrom, ih]

theorem rowsFrom_append (helpers : Bool) (c : Nat) (a b : List (Option TestData)) :
    rowsFrom helpers c (a ++ b) = rowsFrom helpers c a ++ rowsFrom helpers (c + a.length) b := by
  induction a generalizing c with
  | nil => simp [rowsFrom]
  | cons d rest ih =>
    have e : c + 1 + rest.length = c + (rest.length + 1) := by omega
    simp [rowsFrom, ih, e]

/-- In the ready state a run of `addTestItem` calls appends one wrapper per
call, in call order, and leaves the queue alone. -/
theorem addTestItem_ready_fold (render : String → String) (st : AdminState)
    (hl : st.testsListEl = true) (hr : st.tiptapReady = true) (ds : List (Option TestData)) :
    (ds.foldl (addTestItem render) st).testsListEl = true
    ∧ (ds.foldl (addTestItem render) st).tiptapReady = true
    ∧ (ds.foldl (addTestItem render) st).helpers = st.helpers
    ∧ (ds.foldl (addTestItem render) st).initialTests = st.initialTests
    ∧ (ds.foldl (addTestItem render) st).pendingTestQueue = st.pendingTestQueue
    ∧ (ds.foldl (addTestItem render) st).testCounter = st.testCounter + ds.length
    ∧ (ds.foldl (addTestItem render) st).rows
        = st.rows ++ rowsFrom st.helpers st.testCounter ds := by
  induction ds generalizing st with
  | nil => simp [rowsFrom, hl, hr]
  | cons d rest ih =>
    simp only [List.foldl_cons]
    have hl2 : (addTestItem render st d).testsListEl = true := by simp [addTestItem, hl, hr]
    have hr2 : (addTestItem render st d).tiptapReady = true := by simp [addTestItem, hl, hr]
    obtain ⟨h1, h2, h3, h4, h5, h6, h7⟩ := ih (addTestItem render st d) hl2 hr2
    refine ⟨h1, h2, ?_, ?_, ?_, ?_, ?_⟩
    · rw [h3]; simp [addTestItem, hl, hr]
    · rw [h4]; simp [addTestItem, hl, hr]
    · rw [h5]; simp [addTestItem, hl, hr]
    · rw [h6]; simp [addTestItem, hl, hr]; omega
    · rw [h7]; simp [addTestItem, hl, hr, rowsFrom]

/-- The drain loop terminates within as many iterations as the queue is long,
creating one wrapper per queued request in queue order. -/
theorem drainQueue_ready (render : String → String) (st : AdminState)
    (hl : st.testsListEl = true) (hr : st.tiptapReady = true) (fuel : Nat)
    (hf : st.pendingTestQueue.length ≤ fuel) :
    ∃ st2, drainQueue render fuel st = some st2
      ∧ st2.testsListEl = true ∧ st2.tiptapReady = true
      ∧ st2.pendingTestQueue = []
      ∧ st2.testCounter = st.testCounter + st.pendingTestQueue.length
      ∧ st2.rows = st.rows ++ rowsFrom st.helpers st.testCounter st.pendingTestQueue := by
  induction fuel generalizing st with
  | zero =>
    have hq : st.pendingTestQueue = [] := List.length_eq_zero.mp (Nat.le_zero.mp hf)
    refine ⟨st, ?_, hl, hr, hq, ?_, ?_⟩
    · unfold drainQueue; simp [hq]
    · simp [hq]
    · simp [hq, rowsFrom]
  | succ n ih =>
    cases hq : st.pendingTestQueue with
    | nil =>
      refine ⟨st, ?_, hl, hr, hq, ?_, ?_⟩
      · unfold drainQueue; simp [hq]
      · simp
      · simp [rowsFrom]
    | cons d rest =>
      have hstep : drainQueue render (n + 1) st
          = drainQueue render n (addTestItem render { st with pendingTestQueue := rest } d) := by
        rw [drainQueue]
        simp [hq]
      have hnext : addTestItem render { st with pendingTestQueue := rest } d
          = { st with
              pendingTestQueue := rest
              testCounter := st.testCounter + 1
              testEditors := mapSet st.testEditors st.testCounter (newEditor render st.helpers d)
              rows := st.rows ++ [newRow st.helpers st.testCounter d] } := by
        simp [addTestItem, hl, hr]
      rw [hq] at hf
      simp only [List.length_cons] at hf
      obtain ⟨st2, h0, h1, h2, h3, h4, h5⟩ :=
        ih (addTestItem render { st with pendingTestQueue := rest } d)
          (by rw [hnext]; exact hl) (by rw [hnext]; exact hr)
          (by rw [hnext]; simp only; omega)
      refine ⟨st2, by rw [hstep]; exact h0, h1, h2, h3, ?_, ?_⟩
      · rw [h4, hnext]; simp only [List.length_cons]; omega
      · rw [h5, hnext]; simp [rowsFrom]

/-! ## Theorems: test-taking widget -/

theorem optionClick_answered (block : TestBlock) (k : Nat) (h : block.answered = true) :
    optionClick block k = block := by
  unfold optionClick
  cases block.options[k]? with
  | none => rfl
  | some btn => simp [h]

theorem optionClick_sets_answered (block : TestBlock) (k : Nat) (hk : k < block.options.length) :
    (optionClick block k).answered = true := by
  unfold optionClick
  rw [List.getElem?_eq_getElem hk]
  cases h : block.answered <;> simp [h]

theorem clicks_after_answered (block : TestBlock) (ks : List Nat) (h : block.answered = true) :
    ks.foldl optionClick block = block := by
  induction ks with
  | nil => rfl
  | cons k rest ih => rw [List.foldl_cons, optionClick_answered block k h, ih]

theorem hasTag_add_self (o : OptionButton) (c : String) :
    hasTag { o with classList := classListAdd o.classList c } c = true := by
  unfold hasTag classListAdd
  by_cases h : c ∈ o.classList <;> simp [h]

theorem hasTag_add_other (o : OptionButton) (c d : String) (h : d ≠ c) :
    hasTag { o with classList := classListAdd o.classList c } d = hasTag o d := by
  unfold hasTag classListAdd
  by_cases hc : c ∈ o.classList
  · simp [hc]
  · simp [hc, h]

theorem numberStrictEq_iff (a b : Option Int) (ha : a ≠ none) :
    numberStrictEq a b = true ↔ a = b := by
  cases a with
  | none => exact absurd rfl ha
  | some x =>
    cases b with
    | none => simp [numberStrictEq]
    | some y => simp [numberStrictEq]

/-- The first click on a fresh block tags the option with the correct index
`correct`, the clicked option `wrong` when its index is another one, and
nothing else. -/
theorem optionClick_tags (block : TestBlock) (k : Nat) (hf : freshBlock block)
    (hk : k < block.options.length) (p : Nat) (o : OptionButton)
    (hp : block.options[p]? = some o) :
    ∃ o2, (optionClick block k).options[p]? = some o2 ∧ o2.index = o.index
      ∧ (hasTag o2 "correct" = true ↔ o.index = block.correctIndex)
      ∧ (hasTag o2 "wrong" = true ↔ (p = k ∧ o.index ≠ block.correctIndex)) := by
  obtain ⟨hans, htags, hidx, hnd⟩ := hf
  have hmem : o ∈ block.options := List.getElem?_mem hp
  have hoc := (htags o hmem).1
  have how := (htags o hmem).2
  have hon := hidx o hmem
  have hbtn : block.options[k]? = some block.options[k] := List.getElem?_eq_getElem hk
  have hbn := hidx _ (List.getElem_mem hk)
  have hpk : o.index = block.options[k].index ↔ p = k := by
    constructor
    · intro e
      have h1 : (block.options.map fun o => o.index)[p]? = some o.index := by
        simp [List.getElem?_map, hp]
      have h2 : (block.options.map fun o => o.index)[k]? = some o.index := by
        simp [List.getElem?_map, hbtn, e]
      have hplt : p < (block.options.map fun o => o.index).length := by
        rcases List.getElem?_eq_some_iff.mp h1 with ⟨h, _⟩
        exact h
      exact List.getElem?_inj hplt hnd (h1.trans h2.symm)
    · intro e
      subst e
      rw [hbtn] at hp
      injection hp with hp
      rw [hp]
  unfold optionClick
  simp only [hbtn, hans, Bool.false_eq_true, if_false, List.getElem?_map, hp, Option.map_some']
  by_cases hc : numberStrictEq o.index block.correctIndex = true
  · have hce := (numberStrictEq_iff _ _ hon).mp hc
    refine ⟨_, rfl, ?_, ?_, ?_⟩
    · simp [hc]
    · simp only [hc, if_true, hasTag_add_self, true_iff]
      exact hce
    · simp only [hc, if_true]
      rw [hasTag_add_other _ _ _ (by decide), how]
      simp [hce]
  · have hce : ¬ o.index = block.correctIndex := fun e => hc ((numberStrictEq_iff _ _ hon).mpr e)
    by_cases hw : numberStrictEq o.index block.options[k].index = true
    · have hwe := (numberStrictEq_iff _ _ hon).mp hw
      refine ⟨_, rfl, ?_, ?_, ?_⟩
      · simp [hc, hw]
      · simp only [hc, hw, if_true, Bool.false_eq_true, if_false]
        rw [hasTag_add_other _ _ _ (by decide), hoc]
        simp [hce]
      · simp only [hc, hw, if_true, Bool.false_eq_true, if_false, hasTag_add_self, true_iff]
        exact ⟨hpk.mp hwe, hce⟩
    · have hwe : ¬ o.index = block.options[k].index :=
        fun e => hw ((numberStrictEq_iff _ _ hon).mpr e)
      refine ⟨_, rfl, ?_, ?_, ?_⟩
      · simp [hc, hw]
      · simp [hc, hw, hoc, hce]
      · simp only [hc, hw, Bool.false_eq_true, if_false, how]
        constructor
        · intro h; exact absurd h (by simp)
        · intro h; exact absurd (hpk.mpr h.1) hwe

/-! ## Theorems: theme toggle -/

theorem themeToggleClick_dark (s : ThemeState) (h : s.dataTheme = some "dark") :
    themeToggleClick s = { dataTheme := none, stored := none } := by
  simp [themeToggleClick, h]

theorem themeToggleClick_not_dark (s : ThemeState) (h : s.dataTheme ≠ some "dark") :
    themeToggleClick s = { dataTheme := some "dark", stored := some "dark" } := by
  simp [themeToggleClick, h]

theorem themeToggle_twice_iff (s : ThemeState) :
    themeToggleClick (themeToggleClick s) = s
      ↔ (s = { dataTheme := none, stored := none }
          ∨ s = { dataTheme := some "dark", stored := some "dark" }) := by
  by_cases h : s.dataTheme = some "dark"
  · rw [themeToggleClick_dark s h, themeToggleClick_not_dark _ (by simp)]
    constructor
    · intro e; right; exact e.symm
    · rintro (e | e)
      · rw [e] at h; simp at h
      · exact e.symm
  · rw [themeToggleClick_not_dark s h, themeToggleClick_dark _ rfl]
    constructor
    · intro e; left; exact e.symm
    · rintro (e | e)
      · exact e.symm
      · rw [e] at h; exact absurd rfl h

/-! ## Claims -/

/-- C3: on every sequence of top-level nodes `extractTasksFromEditor` returns
the sections the specification describes (`specSections`): nothing for no
nodes, otherwise one section per H3 node in order, titled with the heading text
or the placeholder when that text is empty, preceded by a placeholder-titled
section exactly when the first node is not an H3; each body is the in-order
concatenation of the markup (or text, for nodes without markup) of the non-H3
nodes up to the next heading, and no heading is part of a body.  The three
sample inputs of the specification evaluate as stated, and so does a sequence
with text nodes, an empty heading and a heading of another level. -/
theorem C3_extract_sections :
    (∀ nodes : List Node, extractTasksFromEditor nodes = specSections nodes)
    ∧ (∀ nodes : List Node, (headingSections nodes).map Task.title
        = (nodes.filter specIsHeading).map specTitle)
    ∧ (∀ (nodes : List Node) (n : Node), n ∈ bodyNodes nodes → specIsHeading n = false)
    ∧ extractTasksFromEditor [] = []
    ∧ extractTasksFromEditor [elementNode "P" "<p>x</p>" "x"]
        = [{ title := "Задача", html := "<p>x</p>" }]
    ∧ extractTasksFromEditor
        [elementNode "H3" "<h3>A</h3>" "A", elementNode "P" "<p>1</p>" "1",
          elementNode "H3" "<h3>B</h3>" "B", elementNode "P" "<p>2</p>" "2"]
        = [{ title := "A", html := "<p>1</p>" }, { title := "B", html := "<p>2</p>" }]
    ∧ extractTasksFromEditor
        [textNode "intro", elementNode "H2" "<h2>x</h2>" "x", elementNode "H3" "<h3></h3>" "",
          elementNode "P" "<p>1</p>" "1", textNode "tail",
          elementNode "H3" "<h3><b>C</b></h3>" "C"]
        = [{ title := "Задача", html := "intro<h2>x</h2>" },
            { title := "Задача", html := "<p>1</p>tail" }, { title := "C", html := "" }] :=
  ⟨extract_eq_spec, headingSections_titles, bodyNodes_not_heading,
    by decide, by decide, by decide, by decide⟩

/-- C4 (as stated, refuted): whatever turns the hydration markup into nodes,
a section with an empty title is not returned by the splitter; and the join
gives one and the same markup for a body holding a heading and for the list
split at that heading, and likewise for a title holding a heading boundary, so
that nothing can return both lists. -/
theorem C4_roundtrip_fails :
    (¬ ∃ parse : String → List Node,
        extractTasksFromEditor (parse (tasksHtml [{ title := "", html := "<p>x</p>" }]))
          = [{ title := "", html := "<p>x</p>" }])
    ∧ (¬ ∃ parse : String → List Node,
        extractTasksFromEditor (parse (tasksHtml [{ title := "A", html := "<h3>B</h3>" }]))
          = [{ title := "A", html := "<h3>B</h3>" }]
        ∧ extractTasksFromEditor
            (parse (tasksHtml [{ title := "A", html := "" }, { title := "B", html := "" }]))
          = [{ title := "A", html := "" }, { title := "B", html := "" }])
    ∧ (¬ ∃ parse : String → List Node,
        extractTasksFromEditor (parse (tasksHtml [{ title := "a</h3><h3>b", html := "" }]))
          = [{ title := "a</h3><h3>b", html := "" }]
        ∧ extractTasksFromEditor
            (parse (tasksHtml [{ title := "a", html := "" }, { title := "b", html := "" }]))
          = [{ title := "a", html := "" }, { title := "b", html := "" }]) := by
  refine ⟨?_, ?_, ?_⟩
  · rintro ⟨parse, h⟩
    have := extract_title_ne_empty
      (parse (tasksHtml [{ title := "", html := "<p>x</p>" }]))
      { title := "", html := "<p>x</p>" }
    rw [h] at this
    exact this (List.mem_singleton.mpr rfl) rfl
  · rintro ⟨parse, h1, h2⟩
    have e : tasksHtml [{ title := "A", html := "<h3>B</h3>" }]
        = tasksHtml [{ title := "A", html := "" }, { title := "B", html := "" }] := by decide
    rw [e, h2] at h1
    exact absurd h1 (by decide)
  · rintro ⟨parse, h1, h2⟩
    have e : tasksHtml [{ title := "a</h3><h3>b", html := "" }]
        = tasksHtml [{ title := "a", html := "" }, { title := "b", html := "" }] := by decide
    rw [e, h2] at h1
    exact absurd h1 (by decide)

/-- C4 (amended): for every function from markup to top-level nodes (the
editor and the HTML parser) and every ordered list of sections with non-empty
titles: when that function turns the markup which `hydrateEditors` builds from
the list into, per section and in order, an H3 node whose text is the
section's title followed by nodes that are not H3 nodes and whose markup
concatenates to the section's html, then `extractTasksFromEditor` on the nodes
of that markup yields the original list, titles, bodies and order unchanged. -/
theorem C4_join_right_inverse (pipeline : String → List Node) (secs : List ParsedSection)
    (hpipe : pipeline (tasksHtml (secs.map fun s => s.task)) = parsedNodes secs)
    (hs : ∀ s ∈ secs, standsFor s) :
    extractTasksFromEditor (pipeline (tasksHtml (secs.map fun s => s.task)))
      = secs.map fun s => s.task := by
  rw [hpipe, extract_eq_spec, specSections_parsedNodes secs hs]

theorem C4_join_right_inverse_witness :
    tasksHtml (sampleSections.map fun s => s.task) = "<h3>A</h3><p>1</p><h3>B</h3><p>2<b>x</b></p>tail"
    ∧ scanMarkup (tasksHtml (sampleSections.map fun s => s.task)) = parsedNodes sampleSections
    ∧ (∀ s ∈ sampleSections, standsFor s)
    ∧ extractTasksFromEditor (scanMarkup (tasksHtml (sampleSections.map fun s => s.task)))
      = [{ title := "A", html := "<p>1</p>" }, { title := "B", html := "<p>2<b>x</b></p>tail" }] :=
  ⟨by decide, by decide, by decide,
   C4_join_right_inverse scanMarkup sampleSections (by decide) (by decide)⟩

/-- C1: in the ready state with the tests list present and empty, after any
sequence of `addTestItem` calls and remove clicks in which every remove targets
a wrapper that is present, `collectTests()` has as many entries as adds minus
removes, and its entries are those of the add calls whose wrapper was not
removed, in the order of the add calls. -/
theorem C1_collect_length_and_order (render : String → String) (st : AdminState)
    (ops : List ListOp)
    (hl : st.testsListEl = true) (hr : st.tiptapReady = true) (he : st.rows = [])
    (hv : removesTargetPresent render st ops = true) :
    (collectTests (runOps render st ops)).length = countAdds ops - countRemoves ops
    ∧ countRemoves ops ≤ countAdds ops
    ∧ collectTests (runOps render st ops)
        = ((addedWithIds st.testCounter ops).filter
            fun p => !(removedIds ops).contains p.1).map
            fun p => freshItem render st.helpers p.2 := by
  have hc := collectTests_runOps render st hl hr he ops hv
  have hlen := (runOps_invariant render st hl hr he ops hv).2.2.2.2.2.2.2
  refine ⟨?_, by omega, ?_⟩
  · rw [hc, List.length_map]
    omega
  · rw [hc]
    rfl

theorem C1_collect_length_and_order_witness :
    removesTargetPresent sampleRender readyState sampleOps = true
    ∧ countAdds sampleOps = 3 ∧ countRemoves sampleOps = 1
    ∧ collectTests (runOps sampleRender readyState sampleOps)
        = [{ question := "<p>q</p>", options := ["a", "bc", "", "d"], correct_index := 1 },
            { question := "<p></p>", options := ["", "", "", ""], correct_index := 0 }]
    ∧ ((collectTests (runOps sampleRender readyState sampleOps)).length
        = countAdds sampleOps - countRemoves sampleOps
      ∧ countRemoves sampleOps ≤ countAdds sampleOps
      ∧ collectTests (runOps sampleRender readyState sampleOps)
        = ((addedWithIds readyState.testCounter sampleOps).filter
            fun p => !(removedIds sampleOps).contains p.1).map
            fun p => freshItem sampleRender readyState.helpers p.2) :=
  ⟨by decide, by decide, by decide, by decide,
   C1_collect_length_and_order sampleRender readyState sampleOps rfl rfl rfl (by decide)⟩

/-- C2: for a wrapper with four checkboxes in the tests list, the
`correct_index` that `collectTests()` reports at its position is `i` when
checkbox `i` is the checked checkbox, is 0 when no checkbox is checked, and is
in every case an integer from 0 to 3. -/
theorem C2_correct_index (st : AdminState) (k : Nat) (row : Row)
    (hl : st.testsListEl = true) (hrow : st.rows[k]? = some row)
    (h4 : row.optionRows.length = 4) :
    ∃ item, (collectTests st)[k]? = some item
      ∧ (∀ i, isChecked row i = true → (∀ j, isChecked row j = true → j = i)
          → item.correct_index = (i : Int))
      ∧ ((∀ j, isChecked row j = false) → item.correct_index = 0)
      ∧ 0 ≤ item.correct_index ∧ item.correct_index ≤ 3 := by
  refine ⟨collectRow st.testEditors row, ?_, ?_, ?_, ?_⟩
  · simp [collectTests, hl, List.getElem?_map, hrow]
  · intro i hi huniq
    apply collectRow_first_checked _ _ _ hi
    intro j hj
    cases hc : isChecked row j with
    | false => rfl
    | true =>
      have := huniq j hc
      omega
  · exact collectRow_none_checked _ _
  · have := collectRow_correct_index_range st.testEditors row (by omega)
    rw [h4] at this
    constructor
    · exact this.1
    · have h2 := this.2
      have e : ((4 : Nat) : Int) = 4 := rfl
      rw [e] at h2
      omega

theorem C2_correct_index_witness :
    (runOps sampleRender readyState [.add (some sampleData)]).rows[0]?
        = some (newRow true 0 (some sampleData))
    ∧ ∃ item, (collectTests (runOps sampleRender readyState [.add (some sampleData)]))[0]?
          = some item
      ∧ (∀ i, isChecked (newRow true 0 (some sampleData)) i = true
          → (∀ j, isChecked (newRow true 0 (some sampleData)) j = true → j = i)
          → item.correct_index = (i : Int))
      ∧ ((∀ j, isChecked (newRow true 0 (some sampleData)) j = false) → item.correct_index = 0)
      ∧ 0 ≤ item.correct_index ∧ item.correct_index ≤ 3 :=
  ⟨by decide,
   C2_correct_index (runOps sampleRender readyState [.add (some sampleData)]) 0
    (newRow true 0 (some sampleData)) (by decide) (by decide) (by decide)⟩

/-- C5: for a wrapper created by `addTestItem` from any data, after any
sequence of change events on its checkboxes at most one checkbox is checked
(the empty sequence is the state after creation), and after a further event
that checks checkbox `j`, `j` is the only checked checkbox. -/
theorem C5_exclusive_checkboxes (helpers : Bool) (testId : Nat) (data : Option TestData)
    (events : List (Nat × Bool)) (j : Nat) (hj : j < 4) :
    (∀ a b, isChecked (runChanges (newRow helpers testId data) events) a = true
        → isChecked (runChanges (newRow helpers testId data) events) b = true → a = b)
    ∧ (∀ a, isChecked (changeEvent (runChanges (newRow helpers testId data) events) j true) a
        = true ↔ a = j) := by
  refine ⟨runChanges_exclusive _ _ (newRow_exclusive helpers testId data), ?_⟩
  intro a
  apply isChecked_changeEvent_true
  rw [runChanges_length]
  simp only [newRow, newOptionRows_length]
  exact hj

theorem C5_exclusive_checkboxes_witness :
    (1 : Nat) < 4
    ∧ ((∀ a b, isChecked (runChanges (newRow true 0 (some sampleData)) [(0, true), (3, true), (3, false)]) a = true
          → isChecked (runChanges (newRow true 0 (some sampleData)) [(0, true), (3, true), (3, false)]) b = true
          → a = b)
      ∧ (∀ a, isChecked (changeEvent
            (runChanges (newRow true 0 (some sampleData)) [(0, true), (3, true), (3, false)]) 1 true) a
          = true ↔ a = 1)) :=
  ⟨by decide,
   C5_exclusive_checkboxes true 0 (some sampleData) [(0, true), (3, true), (3, false)] 1
    (by decide)⟩

/-- C6: with the tests list present and readiness not yet signalled, a
sequence of `addTestItem` calls creates no wrapper and appends the requests to
the pending queue; the readiness handler then terminates (given as many loop
iterations as there are queued requests), leaves the queue empty, and leaves as
wrappers those hydrated from the initial tests followed by one wrapper per
queued request in call order. -/
theorem C6_queue_replay (render : String → String) (st : AdminState)
    (ds : List (Option TestData)) (fuel : Nat)
    (hl : st.testsListEl = true) (hr : st.tiptapReady = false)
    (hf : (st.pendingTestQueue ++ ds).length ≤ fuel) :
    (ds.foldl (addTestItem render) st).rows = st.rows
    ∧ (ds.foldl (addTestItem render) st).pendingTestQueue = st.pendingTestQueue ++ ds
    ∧ ∃ st2, tiptapReadyHandler render fuel (ds.foldl (addTestItem render) st) = some st2
        ∧ st2.tiptapReady = true
        ∧ st2.pendingTestQueue = []
        ∧ st2.rows = rowsFrom st.helpers st.testCounter
            (st.initialTests ++ (st.pendingTestQueue ++ ds))
        ∧ st2.rows.length = st.initialTests.length + (st.pendingTestQueue ++ ds).length := by
  rw [addTestItem_not_ready render st hl hr ds]
  refine ⟨rfl, rfl, ?_⟩
  unfold tiptapReadyHandler hydrateEditors
  simp only [hl, if_true]
  obtain ⟨h1, h2, h3, h4, h5, h6, h7⟩ := addTestItem_ready_fold render
    { st with pendingTestQueue := st.pendingTestQueue ++ ds, tiptapReady := true,
              testEditors := [], rows := [] } hl rfl st.initialTests
  simp only at h3 h4 h5 h6 h7
  obtain ⟨st2, g0, _, g2, g3, _, g5⟩ := drainQueue_ready render _ h1 h2 fuel (by rw [h5]; exact hf)
  simp only [hl] at g0
  refine ⟨st2, g0, g2, g3, ?_, ?_⟩
  · rw [g5, h7, h3, h5, h6, List.nil_append, ← rowsFrom_append]
  · rw [g5, h7, h3, h5, h6, List.nil_append, ← rowsFrom_append, rowsFrom_length,
      List.length_append]

theorem C6_queue_replay_witness :
    (loadingState.pendingTestQueue ++ [some sampleData, none]).length ≤ 2
    ∧ ((([some sampleData, none] : List (Option TestData)).foldl
          (addTestItem sampleRender) loadingState).rows = loadingState.rows
      ∧ (([some sampleData, none] : List (Option TestData)).foldl
          (addTestItem sampleRender) loadingState).pendingTestQueue
          = loadingState.pendingTestQueue ++ [some sampleData, none]
      ∧ ∃ st2, tiptapReadyHandler sampleRender 2
            (([some sampleData, none] : List (Option TestData)).foldl
              (addTestItem sampleRender) loadingState) = some st2
          ∧ st2.tiptapReady = true
          ∧ st2.pendingTestQueue = []
          ∧ st2.rows = rowsFrom loadingState.helpers loadingState.testCounter
              (loadingState.initialTests
                ++ (loadingState.pendingTestQueue ++ [some sampleData, none]))
          ∧ st2.rows.length = loadingState.initialTests.length
              + (loadingState.pendingTestQueue ++ [some sampleData, none]).length) :=
  ⟨by decide,
   C6_queue_replay sampleRender loadingState [some sampleData, none] 2 rfl rfl (by decide)⟩

/-- C7 (as stated, refuted): an initial option with a line break inside is not
collected as its trimmed value: the text input drops the line break, so
`"a\nb"` is collected as `"ab"`, while trimming leaves `"a\nb"` unchanged. -/
theorem C7_line_break_option_fails :
    (collectTests (addTestItem sampleRender readyState
        (some { question := some "q", options := some [some "a\nb"],
                correct_index := .number 0 }))).map (fun item => item.options)
      = [["ab", "", "", ""]]
    ∧ jsTrim "a\nb" = "a\nb"
    ∧ ("ab" : String) ≠ jsTrim "a\nb" := by
  decide

/-- C7 (amended): in the ready state `addTestItem(initial)` followed by
`collectTests()` yields one more entry, the last one, with exactly four
options, option `i` being `initial.options[i]` without its line feeds and
carriage returns and then trimmed (hence the trimmed option itself when it has
no line break, and the empty string when the option is missing, null or
empty), and with `correct_index` equal to `initial.correct_index` when that is
an integer from 0 to 3 and equal to 0 otherwise. -/
theorem C7_add_then_collect (render : String → String) (st : AdminState)
    (d : TestData) (hl : st.testsListEl = true) (hr : st.tiptapReady = true) :
    ∃ item, (collectTests (addTestItem render st (some d))).getLast? = some item
      ∧ (collectTests (addTestItem render st (some d))).length = (collectTests st).length + 1
      ∧ item.options.length = 4
      ∧ (∀ opts i o, i < 4 → d.options = some opts → opts[i]? = some (some o)
          → item.options[i]? = some (jsTrim (stripNewlines o)))
      ∧ (∀ opts i o, i < 4 → d.options = some opts → opts[i]? = some (some o)
          → (∀ c ∈ o.data, c.toNat ≠ 0x0A ∧ c.toNat ≠ 0x0D)
          → item.options[i]? = some (jsTrim o))
      ∧ (∀ i, i < 4 → d.options = none → item.options[i]? = some "")
      ∧ (∀ opts i, i < 4 → d.options = some opts
          → (opts[i]? = none ∨ opts[i]? = some none ∨ opts[i]? = some (some ""))
          → item.options[i]? = some "")
      ∧ (∀ c : Int, 0 ≤ c → c ≤ 3 → d.correct_index = .number c → item.correct_index = c)
      ∧ ((∀ c : Int, 0 ≤ c → c ≤ 3 → d.correct_index ≠ .number c)
          → item.correct_index = 0) := by
  have hadd : addTestItem render st (some d)
      = { st with
          testCounter := st.testCounter + 1
          testEditors :=
            mapSet st.testEditors st.testCounter (newEditor render st.helpers (some d))
          rows := st.rows ++ [newRow st.helpers st.testCounter (some d)] } := by
    simp [addTestItem, hl, hr]
  have hopt := collectRow_newRow_options
    (mapSet st.testEditors st.testCounter (newEditor render st.helpers (some d)))
    st.helpers st.testCounter (some d)
  have hci := collectRow_newRow_correct_index
    (mapSet st.testEditors st.testCounter (newEditor render st.helpers (some d)))
    st.helpers st.testCounter (some d)
  have hget : ∀ i, i < 4 →
      ((List.range 4).map fun i => jsTrim (stripNewlines (specOption (some d) i)))[i]?
        = some (jsTrim (stripNewlines (specOption (some d) i))) := by
    intro i hi
    simp [List.getElem?_map, List.getElem?_range hi]
  have hempty : jsTrim (stripNewlines "") = "" := by decide
  have hsome : ∀ opts i o, d.options = some opts → opts[i]? = some (some o)
      → specOption (some d) i = o := by
    intro opts i o ho hio
    simp [specOption, ho, hio]
  refine ⟨collectRow (mapSet st.testEditors st.testCounter (newEditor render st.helpers (some d)))
    (newRow st.helpers st.testCounter (some d)), ?_, ?_, ?_, ?_, ?_, ?_, ?_, ?_, ?_⟩
  · rw [hadd]
    simp [collectTests, hl]
  · rw [hadd]
    simp [collectTests, hl]
  · rw [hopt]
    simp
  · intro opts i o hi ho hio
    rw [hopt, hget i hi, hsome opts i o ho hio]
  · intro opts i o hi ho hio hnb
    rw [hopt, hget i hi, hsome opts i o ho hio, stripNewlines_of_no_break o hnb]
  · intro i hi ho
    rw [hopt, hget i hi]
    have : specOption (some d) i = "" := by simp [specOption, ho]
    rw [this, hempty]
  · intro opts i hi ho hio
    rw [hopt, hget i hi]
    have : specOption (some d) i = "" := by
      rcases hio with h | h | h <;> simp [specOption, ho, h]
    rw [this, hempty]
  · intro c h0 h3 hc
    rw [hci]
    simp [specCorrectIndex, hc, h0, h3]
  · intro hno
    rw [hci]
    cases hv : d.correct_index with
    | number n =>
      have hr2 : ¬ (0 ≤ n ∧ n ≤ 3) := fun h => hno n h.1 h.2 hv
      simp [specCorrectIndex, hv, hr2]
    | undefined => simp [specCorrectIndex, hv]
    | null => simp [specCorrectIndex, hv]
    | string s => simp [specCorrectIndex, hv]
    | other => simp [specCorrectIndex, hv]

theorem C7_add_then_collect_witness :
    readyState.testsListEl = true ∧ readyState.tiptapReady = true
    ∧ collectTests (addTestItem sampleRender readyState (some breakData))
        = [{ question := "<p>q</p>", options := ["a", "bc", "", "d"], correct_index := 1 }]
    ∧ ∃ item, (collectTests (addTestItem sampleRender readyState (some breakData))).getLast?
          = some item
      ∧ (collectTests (addTestItem sampleRender readyState (some breakData))).length
          = (collectTests readyState).length + 1
      ∧ item.options.length = 4
      ∧ (∀ opts i o, i < 4 → breakData.options = some opts → opts[i]? = some (some o)
          → item.options[i]? = some (jsTrim (stripNewlines o)))
      ∧ (∀ opts i o, i < 4 → breakData.options = some opts → opts[i]? = some (some o)
          → (∀ c ∈ o.data, c.toNat ≠ 0x0A ∧ c.toNat ≠ 0x0D)
          → item.options[i]? = some (jsTrim o))
      ∧ (∀ i, i < 4 → breakData.options = none → item.options[i]? = some "")
      ∧ (∀ opts i, i < 4 → breakData.options = some opts
          → (opts[i]? = none ∨ opts[i]? = some none ∨ opts[i]? = some (some ""))
          → item.options[i]? = some "")
      ∧ (∀ c : Int, 0 ≤ c → c ≤ 3 → breakData.correct_index = .number c
          → item.correct_index = c)
      ∧ ((∀ c : Int, 0 ≤ c → c ≤ 3 → breakData.correct_index ≠ .number c)
          → item.correct_index = 0) :=
  ⟨rfl, rfl, by decide, C7_add_then_collect sampleRender readyState breakData rfl rfl⟩

/-- C8: on a block as the page delivers it (unanswered, untagged, options with
distinct numeric indices), after a first click on option `k` and any further
clicks the block is as the first click left it: the option whose index equals
the correct index is tagged `correct`, the clicked option is tagged `wrong`
exactly when its index differs from the correct index, and no other option is
tagged. -/
theorem C8_first_click_decides (block : TestBlock) (k : Nat) (ks : List Nat)
    (hf : freshBlock block) (hk : k < block.options.length) :
    ks.foldl optionClick (optionClick block k) = optionClick block k
    ∧ ∀ p o, block.options[p]? = some o →
        ∃ o2, (ks.foldl optionClick (optionClick block k)).options[p]? = some o2
          ∧ o2.index = o.index
          ∧ (hasTag o2 "correct" = true ↔ o.index = block.correctIndex)
          ∧ (hasTag o2 "wrong" = true ↔ (p = k ∧ o.index ≠ block.correctIndex)) := by
  have h1 := clicks_after_answered (optionClick block k) ks (optionClick_sets_answered block k hk)
  refine ⟨h1, ?_⟩
  intro p o hp
  rw [h1]
  exact optionClick_tags block k hf hk p o hp

theorem C8_first_click_decides_witness :
    freshBlock sampleBlock ∧ 2 < sampleBlock.options.length
    ∧ optionClick sampleBlock 2
        = { correctIndex := some 1
            options := [⟨some 0, ["test-option"]⟩, ⟨some 1, ["test-option", "correct"]⟩,
              ⟨some 2, ["test-option", "wrong"]⟩, ⟨some 3, ["test-option"]⟩]
            answered := true }
    ∧ (([1, 3, 2] : List Nat).foldl optionClick (optionClick sampleBlock 2)
          = optionClick sampleBlock 2
      ∧ ∀ p o, sampleBlock.options[p]? = some o →
          ∃ o2, (([1, 3, 2] : List Nat).foldl optionClick (optionClick sampleBlock 2)).options[p]?
              = some o2
            ∧ o2.index = o.index
            ∧ (hasTag o2 "correct" = true ↔ o.index = sampleBlock.correctIndex)
            ∧ (hasTag o2 "wrong" = true ↔ (p = 2 ∧ o.index ≠ sampleBlock.correctIndex))) :=
  ⟨by unfold freshBlock; decide, by decide, by decide,
   C8_first_click_decides sampleBlock 2 [1, 3, 2] (by unfold freshBlock; decide) (by decide)⟩

/-- C9 (as stated, refuted): a page loaded with the persisted value `light`
has attribute and persisted value `light`; two invocations of the toggle
handler leave both absent. -/
theorem C9_toggle_twice_fails :
    loadTheme { dataTheme := none, stored := some "light" }
        = { dataTheme := some "light", stored := some "light" }
    ∧ themeToggleClick (themeToggleClick (loadTheme { dataTheme := none, stored := some "light" }))
        = { dataTheme := none, stored := none }
    ∧ themeToggleClick (themeToggleClick (loadTheme { dataTheme := none, stored := some "light" }))
        ≠ loadTheme { dataTheme := none, stored := some "light" } := by
  decide

/-- C9 (amended): two invocations of the toggle handler return the attribute
and the persisted value to their original values exactly in the two states the
handler itself produces: both absent, or both `dark`. -/
theorem C9_toggle_twice (s : ThemeState) :
    themeToggleClick (themeToggleClick s) = s
      ↔ (s = { dataTheme := none, stored := none }
          ∨ s = { dataTheme := some "dark", stored := some "dark" }) :=
  themeToggle_twice_iff s

/-- C10: evaluation of the `onchange` handler of `insertImage`.  For a file of
1024 bytes and a non-success answer with a `detail` message no alert is shown:
the handler's promise is rejected with that message and no image is inserted.
This holds for every file of at most 5 MB and every non-success answer.  A file
larger than 5 * 1024 * 1024 bytes is alerted, not uploaded and not inserted,
and a file of at most that size never raises an alert. -/
theorem C10_upload_failure_not_alerted :
    insertImageChange (fun _ => { ok := false, body := some ⟨some "Недопустимый файл", "", ""⟩ })
        (some { size := 1024 })
      = { alerts := [], images := [], uploads := [{ size := 1024 }],
          rejected := some "Недопустимый файл" }
    ∧ (∀ (server : UploadFile → Response) (f : UploadFile),
        f.size ≤ 5 * 1024 * 1024 → (server f).ok = false →
          (insertImageChange server (some f)).alerts = []
          ∧ (insertImageChange server (some f)).images = []
          ∧ (insertImageChange server (some f)).rejected ≠ none)
    ∧ (∀ (server : UploadFile → Response) (f : UploadFile),
        f.size > 5 * 1024 * 1024 →
          insertImageChange server (some f)
            = { alerts := ["Файл больше 5 МБ"], images := [], uploads := [], rejected := none })
    ∧ (∀ (server : UploadFile → Response) (f : UploadFile),
        f.size ≤ 5 * 1024 * 1024 → (insertImageChange server (some f)).alerts = []) := by
  refine ⟨by decide, ?_, ?_, ?_⟩
  · intro server f hs hok
    have hn : ¬ f.size > 5 * 1024 * 1024 := by omega
    simp [insertImageChange, hn, uploadImage, hok]
  · intro server f hs
    simp [insertImageChange, hs]
  · intro server f hs
    have hn : ¬ f.size > 5 * 1024 * 1024 := by omega
    simp only [insertImageChange, hn, if_false]
    cases uploadImage server f <;> rfl

end LessonEditor
